import Mathlib

/-!
Shallow embedding of the SBOM normalization and metrics pipeline of
`src/index.js` (class `SBOMUIAction`): the severity classifier
(`severityOrder`), CVSS selector (`pickCVSS`), license extractor
(`licenseNames`), fixed-version extraction (`extractFixedVersions`,
`hasFixIndicators`), the CycloneDX parser (`parseCycloneDX`), the SPDX-XML
stub (`parseSPDXXML`), the dataset-id resolver (`extractDatasetId`,
strategy 1), the aggregator (`countSeverities`, `buildTopCVEs`,
fix-availability rate) and the driver (`parseSBOMFiles`).

Modelling conventions:
* JS strings are Lean `String`s; string munging is done on `List Char`
  (`String.data`) so that everything kernel-evaluates.
* A JS value that may be `undefined`/`null` is an `Option`; JS falsiness of
  strings (`''` is falsy) is `strTruthy`; `x || y` on strings is `jsOr`,
  `x ?? y` on options is `Option.or`.
* JS numbers are modelled as exact rationals `ℚ` (integer counters as
  `Nat`/`Int`).  `Math.round` is `⌊x + 1/2⌋` (round half toward +∞),
  `Math.max` is `max`.
* JS `Map`/`Set`/object accumulators are insertion-ordered association
  lists, matching the insertion-order guarantees of JS.
* `Array.prototype.sort` (stable since ES2019) is modelled by the stable
  `List.insertionSort`; `localeCompare` and the default string sort are
  modelled as lexicographic order on scalar values.
-/

/-- JS truthiness of a possibly-absent string: `undefined`, `null` and `''`
are falsy, every other string is truthy. -/
def strTruthy : Option String → Bool
  | none => false
  | some s => s != ""

/-- JS `x || y` for possibly-absent strings: returns `x` when truthy,
otherwise `y`. -/
def jsOr (x y : Option String) : Option String :=
  if strTruthy x then x else y

/-- JS `(x || d)` for a string default `d`: returns the value of `x` when
truthy, else `d`. -/
def jsGetStr (x : Option String) (d : String) : String :=
  if strTruthy x then x.getD d else d

/-- JS `(x || null)` for strings: normalizes a falsy string to `null`. -/
def jsNorm (x : Option String) : Option String :=
  if strTruthy x then x else none

/-- Lower-casing, as JS `toLowerCase` on ASCII data (`String.toLower`,
written out on `List Char` so it kernel-reduces). -/
def lowerStr (s : String) : String :=
  ⟨s.data.map Char.toLower⟩

/-- Upper-casing, as JS `toUpperCase` on ASCII data. -/
def upperStr (s : String) : String :=
  ⟨s.data.map Char.toUpper⟩

/-- Predicate: `pat` occurs as a contiguous substring of `hay` (JS `String.includes`). -/
def containsSub (hay pat : List Char) : Bool :=
  match hay with
  | [] => pat.isEmpty
  | _ :: t => pat.isPrefixOf hay || containsSub t pat

/-- JS `String.replace(pat, repl)` with a string pattern: replaces the first
occurrence only (our call sites always use nonempty patterns). -/
def replaceFirst (s pat repl : List Char) : List Char :=
  match s with
  | [] => []
  | c :: t =>
    if pat.isPrefixOf (c :: t) then repl ++ (c :: t).drop pat.length
    else c :: replaceFirst t pat repl

/-- Split a character list on a separator (used for `/`-separated paths). -/
def splitOnChar (sep : Char) : List Char → List (List Char)
  | [] => [[]]
  | c :: t =>
    match splitOnChar sep t with
    | [] => if c = sep then [[], []] else [[c]]
    | h :: r => if c = sep then [] :: h :: r else (c :: h) :: r

/-- The value a JS property read on the severity table can produce: an own
numeric entry (or the `?? 0` default), or a member inherited from
`Object.prototype` — a non-nullish function/object, modelled by the tag
`protoMember` carrying the property name, whose behaviour beyond being
non-nullish and non-numeric is not needed here. -/
inductive JSLookupValue where
  | rank (n : Nat)
  | protoMember (name : String)
deriving Repr, DecidableEq

/-- The property names a plain object inherits from `Object.prototype`
in standard JS; reading any of them on the severity table yields a
non-nullish member, so `?? 0` does not fire. -/
def objectProtoKeys : List String :=
  ["constructor", "hasOwnProperty", "isPrototypeOf", "propertyIsEnumerable",
   "toLocaleString", "toString", "valueOf", "__defineGetter__", "__defineSetter__",
   "__lookupGetter__", "__lookupSetter__", "__proto__"]

/-- Source `src/index.js` lines 461-464 `severityOrder(s)` as a JS property
read: lower-case `String(s || '')` and read it off the object literal
`critical 4, high 3, medium 2, low 1, info 0, none 0, unknown 0`.  Own
entries win; otherwise the lookup walks the prototype chain, so a name
inherited from `Object.prototype` returns that inherited non-nullish
member; only a genuinely absent key gives `undefined`, defaulted to 0 by
`?? 0`. -/
def severityOrderJS (s : Option String) : JSLookupValue :=
  let t := lowerStr (s.getD "")
  if t = "critical" then .rank 4
  else if t = "high" then .rank 3
  else if t = "medium" then .rank 2
  else if t = "low" then .rank 1
  else if t = "info" then .rank 0
  else if t = "none" then .rank 0
  else if t = "unknown" then .rank 0
  else if t ∈ objectProtoKeys then .protoMember t
  else .rank 0

/-- The numeric projection of the severity lookup, used for the
`severityRank` field of the record pipeline.  It agrees with
`severityOrderJS` on every input whose lower-casing is not an
`Object.prototype` property name (`severityOrder_eq_on_plain`); on those
names the program stores the inherited member itself, a value none of the
downstream theorems' conclusions depend on. -/
def severityOrder (s : Option String) : Nat :=
  let t := lowerStr (s.getD "")
  if t = "critical" then 4
  else if t = "high" then 3
  else if t = "medium" then 2
  else if t = "low" then 1
  else if t = "info" then 0
  else if t = "none" then 0
  else if t = "unknown" then 0
  else 0

/-- A CycloneDX rating object as consumed by `pickCVSS`: a score under
`score` or `baseScore`, a severity under `severity` or `baseSeverity`, and a
method under `method` or `source` (field `src` here). -/
structure Rating where
  score : Option ℚ
  baseScore : Option ℚ
  severity : Option String
  baseSeverity : Option String
  method : Option String
  src : Option String
deriving Repr, DecidableEq

/-- The object `pickCVSS` builds for a candidate rating. -/
structure CVSSPick where
  score : Option ℚ
  severity : String
  method : Option String
deriving Repr, DecidableEq

/-- JS `const score = r.score ?? r.baseScore` (nullish coalescing). -/
def ratingScore (r : Rating) : Option ℚ :=
  r.score.or r.baseScore

/-- JS `const severity = r.severity || r.baseSeverity` (`''` is falsy). -/
def ratingSeverity (r : Rating) : Option String :=
  jsOr r.severity r.baseSeverity

/-- Negation of the skip test `score == null && !severity` of
`src/index.js` line 471. -/
def ratingUsable (r : Rating) : Bool :=
  !(ratingScore r).isNone || strTruthy (ratingSeverity r)

/-- The candidate object of `src/index.js` line 472:
`{ score: score ?? null, severity: (severity || '').toUpperCase(),
method: r.method || r.source || null }`. -/
def mkPick (r : Rating) : CVSSPick :=
  { score := ratingScore r
  , severity := upperStr (jsGetStr (ratingSeverity r) "")
  , method := jsNorm (jsOr r.method r.src) }

/-- The comparison key `obj.score ?? 0` of `src/index.js` line 473. -/
def pickKey (p : CVSSPick) : ℚ :=
  p.score.getD 0

/-- Source `src/index.js` lines 466-476 `pickCVSS(scores)`: skip entries lacking
both score and severity, keep the running best under the strict comparison
`(obj.score ?? 0) > (best.score ?? 0)`, starting from `null`. -/
def pickCVSS (scores : List Rating) : Option CVSSPick :=
  scores.foldl
    (fun best r =>
      if ratingUsable r then
        match best with
        | none => some (mkPick r)
        | some b => if pickKey (mkPick r) > pickKey b then some (mkPick r) else some b
      else best)
    none

/-- The `l.license` sub-object of a CycloneDX license entry. -/
structure LicenseInner where
  id : Option String
  name : Option String
deriving Repr, DecidableEq

/-- A CycloneDX license entry: `{ license: { id, name }, expression }`. -/
structure LicenseEntry where
  license : Option LicenseInner
  expression : Option String
deriving Repr, DecidableEq

/-- The value pushed for one entry by `licenseNames` (`src/index.js` lines
481-485): `l.license?.id`, else `l.license?.name`, else `l.expression`,
each under JS truthiness; `none` when no branch fires. -/
def licenseEntryName (l : LicenseEntry) : Option String :=
  if strTruthy (l.license.bind LicenseInner.id) then l.license.bind LicenseInner.id
  else if strTruthy (l.license.bind LicenseInner.name) then l.license.bind LicenseInner.name
  else if strTruthy l.expression then l.expression
  else none

/-- Source `src/index.js` lines 478-487 `licenseNames(licenses)`: `[]` unless the
input is an array (`none` models any non-array input), else one pushed name
per entry that matches a branch. -/
def licenseNames (licenses : Option (List LicenseEntry)) : List String :=
  match licenses with
  | none => []
  | some ls => ls.filterMap licenseEntryName

/-- A JS value that the fix-extraction code probes with `Array.isArray` /
`typeof === 'string'`: either a single string or an array of strings. -/
inductive StrOrList where
  | one (v : String)
  | many (vs : List String)
deriving Repr, DecidableEq

/-- JS truthiness of a `StrOrList`: `''` is falsy, arrays (even empty ones)
are truthy. -/
def strOrListTruthy : StrOrList → Bool
  | .one v => v != ""
  | .many _ => true

/-- JS `Array.isArray(x) ? x : [x]` — normalize to a list. -/
def toListNorm : StrOrList → List String
  | .one v => [v]
  | .many vs => vs

/-- The `vulnerability.analysis` sub-object, as read by
`extractFixedVersions`. -/
structure Analysis where
  response : Option StrOrList
  justification : Option StrOrList
  state : Option StrOrList
  detail : Option StrOrList
  workaround : Option StrOrList
  fixedIn : Option StrOrList
deriving Repr, DecidableEq

/-- The `vulnerability.remediation` sub-object. -/
structure Remediation where
  versions : Option StrOrList
  workaround : Option String
deriving Repr, DecidableEq

/-- One `affects` entry of a CycloneDX vulnerability: only `ref` is read. -/
structure Affect where
  ref : Option String
deriving Repr, DecidableEq

/-- One `references` entry of a CycloneDX vulnerability: only `url` is read. -/
structure Reference where
  url : Option String
deriving Repr, DecidableEq

/-- A CycloneDX vulnerability entry, restricted to the fields
`parseCycloneDX` and `extractFixedVersions` read.  `cwes` entries are
modelled as the numeric CWE codes of the common CycloneDX form. -/
structure Vuln where
  id : Option String
  description : Option String
  severity : Option String
  ratings : Option (List Rating)
  cvss : Option (List Rating)
  affects : Option (List Affect)
  cwes : Option (List Nat)
  references : Option (List Reference)
  analysis : Option Analysis
  recommendation : Option StrOrList
  solution : Option StrOrList
  remediation : Option Remediation
deriving Repr, DecidableEq

/-- The keyword list of `src/index.js` lines 372-376. -/
def fixIndicators : List String :=
  ["update", "upgrade", "patch", "fix", "fixed", "resolved", "remediation",
   "workaround", "mitigation", "solution", "corrected", "addressed",
   "version", "latest", "newer", "current"]

/-- Source `src/index.js` lines 369-378 `hasFixIndicators(text)`: false on a falsy
text, else true iff the lower-cased text contains one of the keywords. -/
def hasFixIndicators (text : String) : Bool :=
  if text = "" then false
  else fixIndicators.any (fun kw => containsSub (text.data.map Char.toLower) kw.data)

/-- The `sources` array of `src/index.js` lines 324-332. -/
def fixSources (v : Vuln) : List (Option StrOrList) :=
  [ v.analysis.bind Analysis.response
  , v.analysis.bind Analysis.justification
  , v.analysis.bind Analysis.state
  , v.analysis.bind Analysis.detail
  , v.analysis.bind Analysis.workaround
  , v.recommendation
  , v.solution ]

/-- The scan of one `sources` entry (`src/index.js` lines 335-345): a string
source hits when `hasFixIndicators` holds of it, an array source when it
holds of some string element. -/
def sourceScanHit : Option StrOrList → Bool
  | none => false
  | some (.one v) => hasFixIndicators v
  | some (.many vs) => vs.any hasFixIndicators

/-- Source `src/index.js` lines 322-367 `extractFixedVersions(vulnerability)`:
first the keyword scan over the free-text sources (returning the generic
marker `["*"]` on any hit), then `analysis.fixedIn` (normalized to a list),
then `remediation.versions` (normalized) or `remediation.workaround`
(generic marker), else `[]`. -/
def extractFixedVersions (v : Vuln) : List String :=
  if (fixSources v).any sourceScanHit then ["*"]
  else
    match v.analysis.bind Analysis.fixedIn with
    | some fi =>
      if strOrListTruthy fi then toListNorm fi
      else extractFixedVersionsRemediation v
    | none => extractFixedVersionsRemediation v
where
  /-- The `remediation` tail of the function (`src/index.js` lines 355-366). -/
  extractFixedVersionsRemediation (v : Vuln) : List String :=
    match v.remediation with
    | none => []
    | some rem =>
      match rem.versions with
      | some ver =>
        if strOrListTruthy ver then toListNorm ver
        else if strTruthy rem.workaround then ["*"] else []
      | none => if strTruthy rem.workaround then ["*"] else []

/-- A CycloneDX component, restricted to the fields the parser reads:
`bom-ref` (`bomRefDash`), `bomRef` (`bomRefCamel`), `purl`, `name`,
`version`, `licenses`, `scope`. -/
structure Component where
  bomRefDash : Option String
  bomRefCamel : Option String
  purl : Option String
  name : Option String
  version : Option String
  licenses : Option (List LicenseEntry)
  scope : Option String
deriving Repr, DecidableEq

/-- Field `metadata` of a CycloneDX document: only `timestamp` is read. -/
structure Metadata where
  timestamp : Option String
deriving Repr, DecidableEq

/-- A CycloneDX document, restricted to the fields the parser reads. -/
structure CycloneDoc where
  components : Option (List Component)
  vulnerabilities : Option (List Vuln)
  metadata : Option Metadata
deriving Repr, DecidableEq

/-- The component-map key of `src/index.js` line 406:
`c['bom-ref'] || c['bomRef'] || c.purl || `&dollar;{c.name || 'component'}@&dollar;{c.version || ''}``. -/
def componentKey (c : Component) : String :=
  if strTruthy c.bomRefDash then c.bomRefDash.getD ""
  else if strTruthy c.bomRefCamel then c.bomRefCamel.getD ""
  else if strTruthy c.purl then c.purl.getD ""
  else jsGetStr c.name "component" ++ "@" ++ c.version.getD ""

/-- Lookup `componentMap.get ref` where the map was built by `Map.set` over the
component list in order: the last component with the matching key wins. -/
def lookupComponent (comps : List Component) (ref : String) : Option Component :=
  (comps.filter (fun c => componentKey c == ref)).getLast?

/-- JS `(v.affects || []).map(a => a.ref).filter(Boolean)`: the affected
references, with absent and empty refs dropped. -/
def affectRefs (v : Vuln) : List String :=
  ((v.affects.getD []).filterMap Affect.ref).filter (fun s => s != "")

/-- JS `const targets = affects.length ? affects : [null]`
(`src/index.js` line 416). -/
def vulnTargets (v : Vuln) : List (Option String) :=
  if (affectRefs v).isEmpty then [none] else (affectRefs v).map some

/-- JS `v.ratings || v.cvss || []` (arrays are truthy even when empty). -/
def effRatings (v : Vuln) : List Rating :=
  match v.ratings with
  | some l => l
  | none => match v.cvss with
    | some l => l
    | none => []

/-- JS `const sev = (v.severity || rating?.severity || 'UNKNOWN').toUpperCase()`
(`src/index.js` line 414). -/
def resolvedSeverity (v : Vuln) : String :=
  let rSev : Option String := (pickCVSS (effRatings v)).map CVSSPick.severity
  upperStr (if strTruthy v.severity then v.severity.getD ""
            else if strTruthy rSev then rSev.getD ""
            else "UNKNOWN")

/-- The normalized vulnerability record pushed by `src/index.js` lines
420-435. -/
structure VulnRecord where
  dataset : String
  id : Option String
  title : String
  severity : String
  severityRank : Nat
  cvss : Option ℚ
  component : Option String
  version : Option String
  purl : Option String
  licenses : List String
  direct : Bool
  cwes : List Nat
  urls : List String
  fixedVersions : List String
deriving Repr, DecidableEq

/-- The all-fields-absent component used for unresolved refs
(`componentMap.get(ref) || {}` and the `ref == null` case). -/
def emptyComponent : Component :=
  ⟨none, none, none, none, none, none, none⟩

/-- One record of the inner loop of `src/index.js` lines 417-436, built for
a vulnerability against one target reference (`none` models the `[null]`
placeholder of an empty affects list). -/
def vulnRecord (datasetId : String) (comps : List Component) (v : Vuln)
    (ref : Option String) : VulnRecord :=
  let c : Component := match ref with
    | some r => (lookupComponent comps r).getD emptyComponent
    | none => emptyComponent
  { dataset := datasetId
  , id := jsNorm v.id
  , title := jsGetStr (v.description.map (fun d => ⟨d.data.take 200⟩)) "Vulnerability"
  , severity := resolvedSeverity v
  , severityRank := severityOrder (some (resolvedSeverity v))
  , cvss := (pickCVSS (effRatings v)).bind CVSSPick.score
  , component := jsNorm c.name
  , version := jsNorm c.version
  , purl := jsNorm c.purl
  , licenses := licenseNames c.licenses
  , direct := lowerStr (c.scope.getD "") != "optional"
      && lowerStr (c.scope.getD "") != "transitive"
  , cwes := (v.cwes.getD []).filter (fun n => n != 0)
  , urls := ((v.references.getD []).filterMap Reference.url).filter (fun s => s != "")
  , fixedVersions := extractFixedVersions v }

/-- All records a single vulnerability contributes: one per target. -/
def vulnRecords (datasetId : String) (comps : List Component) (v : Vuln) :
    List VulnRecord :=
  (vulnTargets v).map (vulnRecord datasetId comps v)

/-- The per-file result shape of both format parsers. -/
structure ParsedSBOM where
  dataset : String
  created : Option String
  components : Nat
  vulnerabilities : Nat
  items : List VulnRecord
deriving Repr, DecidableEq

/-- Source `src/index.js` lines 403-446 `parseCycloneDX(json, datasetId)`. -/
def parseCycloneDX (json : CycloneDoc) (datasetId : String) : ParsedSBOM :=
  let comps := json.components.getD []
  let items := (json.vulnerabilities.getD []).foldr
    (fun v acc => vulnRecords datasetId comps v ++ acc) []
  { dataset := datasetId
  , created := jsNorm (json.metadata.bind Metadata.timestamp)
  , components := comps.length
  , vulnerabilities := items.length
  , items := items }

/-- Source `src/index.js` lines 448-459 `parseSPDXXML(content, datasetId)`: a stub
that ignores its content and returns an empty result. -/
def parseSPDXXML (datasetId : String) : ParsedSBOM :=
  { dataset := datasetId
  , created := none
  , components := 0
  , vulnerabilities := 0
  , items := [] }

/-- Suffix of a character list starting at its last `'.'`, if any
(helper for `path.extname`). -/
def lastDotSuffix : List Char → Option (List Char)
  | [] => none
  | c :: t =>
    match lastDotSuffix t with
    | some e => some e
    | none => if c = '.' then some (c :: t) else none

/-- Node `path.extname` applied to a path's last component: the suffix from
the last `'.'`, except that a leading `'.'` (hidden-file dot) does not count. -/
def extnameOf (name : List Char) : List Char :=
  match name with
  | [] => []
  | _ :: t => (lastDotSuffix t).getD []

/-- The last `/`-separated component of a path (Node `path.basename` before
extension stripping; POSIX separators). -/
def lastPathComponent (p : String) : List Char :=
  (splitOnChar '/' p.data).getLastD []

/-- Node `path.basename(filePath, path.extname(filePath))` as used by
`extractDatasetId` (`src/index.js` line 239): the last path component with
its extension removed. -/
def fileNameOf (p : String) : List Char :=
  let name := lastPathComponent p
  name.take (name.length - (extnameOf name).length)

/-- The character cleanup `replace(/[^a-zA-Z0-9-_]/g, '-')`. -/
def cleanChars (s : List Char) : List Char :=
  s.map (fun c => if c.isAlphanum || c = '-' || c = '_' then c else '-')

/-- The `imageName` of `src/index.js` line 246:
`fileNameLower.replace('sbom-', '').replace('.cyclonedx.json', '')`.
Note that after `path.basename` stripped the real extension, the literal
substring `.cyclonedx.json` is normally no longer present, so a trailing
`.cyclonedx` survives this step. -/
def imageNameOf (fileNameLower : List Char) : List Char :=
  replaceFirst (replaceFirst fileNameLower "sbom-".data "".data)
    ".cyclonedx.json".data "".data

/-- The keyword table of `src/index.js` lines 249-260, applied in order to
the image name; the fallthrough returns the cleaned image name. -/
def keywordResolve (imageName : List Char) : String :=
  if containsSub imageName "stable".data then "stable"
  else if containsSub imageName "arm64".data then "arm64"
  else if containsSub imageName "amd64".data then
    (if containsSub imageName "backend".data then "backend-amd64"
     else if containsSub imageName "frontend".data then "frontend-amd64"
     else "amd64")
  else if containsSub imageName "backend".data then "backend"
  else if containsSub imageName "frontend".data then "frontend"
  else ⟨cleanChars imageName⟩

/-- Source `src/index.js` lines 236-310 `extractDatasetId(filePath)`,
restricted to Strategy 1 (the `sbom-` filename pattern, lines 244-261),
which is the only strategy the claims exercise: `none` models a path that
falls through to Strategies 2-5 (directory keywords, bare filename, parent
directory, path hash), which are not modelled here. -/
def extractDatasetId (filePath : String) : Option String :=
  let fileNameLower := (fileNameOf filePath).map Char.toLower
  if "sbom-".data.isPrefixOf fileNameLower then
    some (keywordResolve (imageNameOf fileNameLower))
  else none

/-- The zero-initialized severity table of `src/index.js` line 490, as an
insertion-ordered association list (JS objects preserve key insertion
order). -/
def initSeverityCounts : List (String × Nat) :=
  [("CRITICAL", 0), ("HIGH", 0), ("MEDIUM", 0), ("LOW", 0), ("INFO", 0), ("UNKNOWN", 0)]

/-- JS `acc[s] = (acc[s] || 0) + 1` on an insertion-ordered object:
bump an existing key in place, else append it. -/
def bumpKey : List (String × Nat) → String → List (String × Nat)
  | [], k => [(k, 1)]
  | (k', n) :: t, k => if k' = k then (k', n + 1) :: t else (k', n) :: bumpKey t k

/-- Source `src/index.js` lines 489-496 `countSeverities(items)`: reduce
over the records, bumping `(it.severity || 'UNKNOWN').toUpperCase()`. -/
def countSeverities (items : List VulnRecord) : List (String × Nat) :=
  items.foldl (fun acc it => bumpKey acc (upperStr (jsGetStr (some it.severity) "UNKNOWN")))
    initSeverityCounts

/-- Matcher for the anchored regex `^CVE-\d{4}-\d{4,}$`: helper consuming
exactly four digits. -/
def fourDigits : List Char → Option (List Char)
  | a :: b :: c :: d :: t =>
    if a.isDigit && b.isDigit && c.isDigit && d.isDigit then some t else none
  | _ => none

/-- The anchored regex test `/^CVE-\d{4}-\d{4,}$/.test(id)` of
`src/index.js` line 502. -/
def matchesCVE (s : String) : Bool :=
  match s.data with
  | 'C' :: 'V' :: 'E' :: '-' :: rest =>
    match fourDigits rest with
    | some ('-' :: rest2) =>
      match fourDigits rest2 with
      | some rest3 => rest3.all Char.isDigit
      | none => false
    | _ => false
  | _ => false

/-- `it.id || ''` — the id string a record contributes to the CVE ranking. -/
def jsId (it : VulnRecord) : String :=
  (it.id).getD ""

/-- One accumulated CVE ranking entry of `src/index.js` lines 503-511. -/
structure CVEEntry where
  id : String
  count : Nat
  datasets : List String
  maxCVSS : Option ℚ
  worstSeverityRank : Int
deriving Repr, DecidableEq

/-- JS `Set.add`: append if absent (sets preserve insertion order). -/
def setAdd (l : List String) (x : String) : List String :=
  if l.contains x then l else l ++ [x]

/-- The per-item accumulation of `src/index.js` lines 504-507: bump the
count, add the dataset, fold `Math.max(cur.maxCVSS ?? -Infinity, it.cvss)`
over non-null scores, and keep the largest `severityRank ?? -1`. -/
def stepCVE (g : CVEEntry) (it : VulnRecord) : CVEEntry :=
  { g with
    count := g.count + 1
  , datasets := setAdd g.datasets it.dataset
  , maxCVSS := match it.cvss, g.maxCVSS with
      | none, m => m
      | some c, none => some c
      | some c, some m => some (max m c)
  , worstSeverityRank :=
      if (it.severityRank : Int) > g.worstSeverityRank then (it.severityRank : Int)
      else g.worstSeverityRank }

/-- The fresh entry `{ id, count: 0, datasets: new Set(), maxCVSS: null,
worstSeverityRank: -1 }` of `src/index.js` line 503. -/
def newCVE (id : String) : CVEEntry :=
  ⟨id, 0, [], none, -1⟩

/-- JS `Map.get`-or-default followed by `Map.set`: update the entry with the
given id in place, or append a fresh one (maps preserve insertion order). -/
def upsertCVE (it : VulnRecord) (id : String) : List CVEEntry → List CVEEntry
  | [] => [stepCVE (newCVE id) it]
  | g :: gs => if g.id = id then stepCVE g it :: gs else g :: upsertCVE it id gs

/-- The grouping loop of `src/index.js` lines 499-509, producing
`[...map.values()]` in first-occurrence order. -/
def buildGroups (items : List VulnRecord) : List CVEEntry :=
  items.foldl
    (fun acc it => if matchesCVE (jsId it) then upsertCVE it (jsId it) acc else acc)
    []

/-- Lexicographic comparison of character lists by scalar value, modelling
the default JS string sort. -/
def charListLe : List Char → List Char → Bool
  | [], _ => true
  | _ :: _, [] => false
  | a :: as, b :: bs => if a < b then true else if b < a then false else charListLe as bs

/-- Sort order for dataset-name strings. -/
def strLe (a b : String) : Prop :=
  charListLe a.data b.data = true

instance : DecidableRel strLe := fun a b => by
  unfold strLe; infer_instance

/-- JS `x || y` on numbers: `x` when non-zero, else `y` (only zero is falsy
among the values arising in the comparator). -/
def jsOrNum (x y : ℚ) : ℚ :=
  if x ≠ 0 then x else y

/-- The comparator of `src/index.js` line 512:
`(b.worstSeverityRank - a.worstSeverityRank) || (b.count - a.count) ||
((b.maxCVSS ?? 0) - (a.maxCVSS ?? 0))`. -/
def cveCmp (a b : CVEEntry) : ℚ :=
  jsOrNum ((b.worstSeverityRank - a.worstSeverityRank : Int) : ℚ)
    (jsOrNum ((b.count : ℚ) - (a.count : ℚ))
      ((b.maxCVSS.getD 0) - (a.maxCVSS.getD 0)))

/-- The sort relation induced by the comparator: `a` stays before `b` when
the comparator is non-positive. -/
def cveLe (a b : CVEEntry) : Prop :=
  cveCmp a b ≤ 0

instance : DecidableRel cveLe := fun a b => by
  unfold cveLe; infer_instance

/-- Source `src/index.js` lines 498-514 `buildTopCVEs(items)`: group the
CVE-pattern ids, sort each entry's dataset set, sort the entries by the
comparator (JS sort is stable; modelled by stable insertion sort) and keep
the first ten. -/
def buildTopCVEs (items : List VulnRecord) : List CVEEntry :=
  let entries := (buildGroups items).map
    (fun g : CVEEntry => { g with datasets := g.datasets.insertionSort strLe })
  (entries.insertionSort cveLe).take 10

/-- One discovered file as the driver sees it: its path and the result of
the external JSON/YAML deserializer on its content (`none` models content
the deserializer throws on, which the driver catches and skips). -/
structure FileEntry where
  path : String
  doc : Option CycloneDoc
deriving Repr, DecidableEq

/-- Dataset id for a file, as computed at `src/index.js` line 197.
Only Strategy 1 of the resolver is modelled; other paths get a fixed
placeholder id, which no claim depends on. -/
def datasetIdOf (p : String) : String :=
  (extractDatasetId p).getD "dataset"

/-- The lower-cased extension a file is dispatched on
(`path.extname(filePath).toLowerCase()`, `src/index.js` line 381). -/
def extOf (p : String) : String :=
  ⟨(extnameOf (lastPathComponent p)).map Char.toLower⟩

/-- Source `src/index.js` lines 380-401 `parseSBOM(content, filePath,
datasetId)`: dispatch on the lower-cased extension — `.json`, `.yaml` and
`.yml` go to the CycloneDX parser (YAML support present), `.xml` to the
SPDX stub, anything else yields `null`. -/
def parseSBOM (f : FileEntry) : Option ParsedSBOM :=
  if extOf f.path = ".json" ∨ extOf f.path = ".yaml" ∨ extOf f.path = ".yml" then
    f.doc.map (fun d => parseCycloneDX d (datasetIdOf f.path))
  else if extOf f.path = ".xml" then some (parseSPDXXML (datasetIdOf f.path))
  else none

/-- The per-dataset aggregate pushed at `src/index.js` lines 202-208. -/
structure Dataset where
  id : String
  created : Option String
  components : Nat
  vulnerabilities : Nat
  severityCounts : List (String × Nat)
deriving Repr, DecidableEq

/-- The pipeline output of `src/index.js` lines 221-233, without the
wall-clock `generatedAt` timestamp. -/
structure ParsedResult where
  datasets : List Dataset
  items : List VulnRecord
  total : Nat
  overallSeverityCounts : List (String × Nat)
  fixAvailabilityRate : Int
  topCVEs : List CVEEntry
deriving Repr, DecidableEq

/-- The number of items with a non-empty `fixedVersions` list. -/
def countWithFix (items : List VulnRecord) : Nat :=
  (items.filter (fun it => !it.fixedVersions.isEmpty)).length

/-- The fix-availability metric of `src/index.js` lines 217-218:
`allItems.length ? Math.round(100 * (withFix / total)) : 0`. -/
def fixAvailabilityRate (items : List VulnRecord) : Int :=
  if items.length = 0 then 0
  else ⌊100 * ((countWithFix items : ℚ) / (items.length : ℚ)) + 1 / 2⌋

/-- Sort order for the final `datasets` list
(`sort((a, b) => String(a.id).localeCompare(String(b.id)))`, modelled as
lexicographic order on the ids). -/
def datasetLe (a b : Dataset) : Prop :=
  strLe a.id b.id

instance : DecidableRel datasetLe := fun a b => by
  unfold datasetLe; infer_instance

/-- The accumulation loop of `src/index.js` lines 194-214: each file whose
parse produced a non-empty `items` list appends one dataset aggregate and
its items; every other file leaves both accumulators untouched. -/
def collectStep (acc : List Dataset × List VulnRecord) (f : FileEntry) :
    List Dataset × List VulnRecord :=
  match parseSBOM f with
  | some parsed =>
    if parsed.items.length > 0 then
      (acc.1 ++ [{ id := datasetIdOf f.path
                 , created := parsed.created
                 , components := parsed.components
                 , vulnerabilities := parsed.vulnerabilities
                 , severityCounts := countSeverities parsed.items }],
       acc.2 ++ parsed.items)
    else acc
  | none => acc

/-- The whole accumulation loop, a fold of `collectStep` from empty
accumulators. -/
def collectFiles (files : List FileEntry) : List Dataset × List VulnRecord :=
  files.foldl collectStep ([], [])

/-- Source `src/index.js` lines 190-234 `parseSBOMFiles(sbomFiles)`:
accumulate datasets and items, then aggregate. -/
def parseSBOMFiles (files : List FileEntry) : ParsedResult :=
  let acc := collectFiles files
  { datasets := acc.1.insertionSort datasetLe
  , items := acc.2
  , total := acc.2.length
  , overallSeverityCounts := countSeverities acc.2
  , fixAvailabilityRate := fixAvailabilityRate acc.2
  , topCVEs := buildTopCVEs acc.2 }

/-- The rate formula of the claim: `round(100 * countWithFix / total)`,
`0` when `total = 0`. -/
def rateFormula (c t : Nat) : Int :=
  if t = 0 then 0 else ⌊100 * ((c : ℚ) / (t : ℚ)) + 1 / 2⌋

/-- The vulnerability of Scenario E: no top-level severity, a single rating
carrying `baseScore 9.1` and `baseSeverity "CRITICAL"`. -/
def vulnScenE : Vuln :=
  ⟨some "CVE-2024-0005", none, none,
   some [⟨none, some 9.1, none, some "CRITICAL", none, none⟩],
   none, none, none, none, none, none, none, none⟩

/-- A vulnerability where both fix paths apply: a free-text recommendation
containing a fix keyword and an explicit `analysis.fixedIn` value. -/
def vulnBothApply : Vuln :=
  ⟨some "CVE-2024-1111", none, none, none, none, none, none, none,
   some ⟨none, none, none, none, none, some (.one "2.0")⟩,
   some (.one "Upgrade to 2.0"), none, none⟩

/-- Like `vulnBothApply` but with no free-text fix indicator, so only the
explicit `analysis.fixedIn` path applies. -/
def vulnExplicitOnly : Vuln :=
  ⟨some "CVE-2024-1111", none, none, none, none, none, none, none,
   some ⟨none, none, none, none, none, some (.one "2.0")⟩,
   none, none, none⟩

/-- The items a file contributes to the pipeline: empty when its parse
fails or is skipped. -/
def itemsOfFile (f : FileEntry) : List VulnRecord :=
  match parseSBOM f with
  | none => []
  | some p => p.items

/-- The candidate objects `pickCVSS` builds, in order: one per rating that
survives the skip test. -/
def pickedObjs (scores : List Rating) : List CVSSPick :=
  (scores.filter ratingUsable).map mkPick

/-- The best-so-far update of `src/index.js` line 473:
`if (!best || (obj.score ?? 0) > (best.score ?? 0)) best = obj`. -/
def pickStep (best : Option CVSSPick) (o : CVSSPick) : Option CVSSPick :=
  match best with
  | none => some o
  | some b => if pickKey o > pickKey b then some o else some b

/-- The records contributing to the CVE group with the given id. -/
def itemsForCVE (items : List VulnRecord) (id : String) : List VulnRecord :=
  items.filter (fun it => jsId it == id)

/-- The ordering of the claim: severityRank descending, then count
descending, then max CVSS descending with a null max treated as 0 for the
comparison only. -/
def cveOrdered (a b : CVEEntry) : Prop :=
  b.worstSeverityRank < a.worstSeverityRank ∨
    (b.worstSeverityRank = a.worstSeverityRank ∧
      (b.count < a.count ∨ (b.count = a.count ∧ b.maxCVSS.getD 0 ≤ a.maxCVSS.getD 0)))

/-! ## Theorems -/

/-- The numeric projection agrees with the full JS lookup away from the
inherited `Object.prototype` property names. -/
theorem severityOrder_eq_on_plain (s : Option String)
    (h : lowerStr (s.getD "") ∉ objectProtoKeys) :
    severityOrderJS s = .rank (severityOrder s) := by
  simp only [severityOrder, severityOrderJS]
  split_ifs <;> rfl

/-- Counterexample to C3 as stated: `"constructor"` is not in the severity
table, yet the lookup does not return 0 — the object literal inherits
`Object.prototype`, so `map['constructor']` yields the inherited
constructor, which is non-nullish and survives `?? 0`; likewise for
`"__proto__"`, and upper-cased variants reach it through lower-casing. -/
theorem severityOrder_proto_counterexample :
    "constructor" ∉
      (["critical", "high", "medium", "low", "info", "none", "unknown"] : List String) ∧
    severityOrderJS (some "constructor") = .protoMember "constructor" ∧
    severityOrderJS (some "constructor") ≠ .rank 0 ∧
    severityOrderJS (some "CONSTRUCTOR") = .protoMember "constructor" ∧
    severityOrderJS (some "__proto__") = .protoMember "__proto__" := by
  decide

/-- C3 (amended): `rank` lower-cases its input (also accepting null/empty)
and returns the table value `critical 4, high 3, medium 2, low 1, info 0,
none 0, unknown 0`; an input whose lower-casing is neither in the table nor
an `Object.prototype` property name returns 0, while an inherited property
name returns that inherited non-numeric member (the `?? 0` default fires
only on `undefined`); the lookup is case-insensitive, in particular
`rank "HIGH" = rank "high" = 3`. -/
theorem severityOrderJS_spec :
    severityOrderJS none = .rank 0 ∧ severityOrderJS (some "") = .rank 0 ∧
    severityOrderJS (some "critical") = .rank 4 ∧
    severityOrderJS (some "high") = .rank 3 ∧
    severityOrderJS (some "medium") = .rank 2 ∧
    severityOrderJS (some "low") = .rank 1 ∧
    severityOrderJS (some "info") = .rank 0 ∧
    severityOrderJS (some "none") = .rank 0 ∧
    severityOrderJS (some "unknown") = .rank 0 ∧
    (∀ s t : String, lowerStr s = lowerStr t →
      severityOrderJS (some s) = severityOrderJS (some t)) ∧
    (∀ s : String,
      lowerStr s ∉ (["critical", "high", "medium", "low", "info", "none", "unknown"] : List String) →
      lowerStr s ∉ objectProtoKeys →
      severityOrderJS (some s) = .rank 0) ∧
    (∀ s : String,
      lowerStr s ∉ (["critical", "high", "medium", "low", "info", "none", "unknown"] : List String) →
      lowerStr s ∈ objectProtoKeys →
      severityOrderJS (some s) = .protoMember (lowerStr s)) ∧
    severityOrderJS (some "HIGH") = severityOrderJS (some "high") ∧
    severityOrderJS (some "HIGH") = .rank 3 := by
  refine ⟨by decide, by decide, by decide, by decide, by decide, by decide,
    by decide, by decide, by decide, ?_, ?_, ?_, by decide, by decide⟩
  · intro s t h
    simp only [severityOrderJS, Option.getD_some, h]
  · intro s hs hp
    have h1 : lowerStr s ≠ "critical" := fun h => hs (by rw [h]; decide)
    have h2 : lowerStr s ≠ "high" := fun h => hs (by rw [h]; decide)
    have h3 : lowerStr s ≠ "medium" := fun h => hs (by rw [h]; decide)
    have h4 : lowerStr s ≠ "low" := fun h => hs (by rw [h]; decide)
    have h5 : lowerStr s ≠ "info" := fun h => hs (by rw [h]; decide)
    have h6 : lowerStr s ≠ "none" := fun h => hs (by rw [h]; decide)
    have h7 : lowerStr s ≠ "unknown" := fun h => hs (by rw [h]; decide)
    simp only [severityOrderJS, Option.getD_some]
    rw [if_neg h1, if_neg h2, if_neg h3, if_neg h4, if_neg h5, if_neg h6, if_neg h7,
      if_neg hp]
  · intro s hs hp
    have h1 : lowerStr s ≠ "critical" := fun h => hs (by rw [h]; decide)
    have h2 : lowerStr s ≠ "high" := fun h => hs (by rw [h]; decide)
    have h3 : lowerStr s ≠ "medium" := fun h => hs (by rw [h]; decide)
    have h4 : lowerStr s ≠ "low" := fun h => hs (by rw [h]; decide)
    have h5 : lowerStr s ≠ "info" := fun h => hs (by rw [h]; decide)
    have h6 : lowerStr s ≠ "none" := fun h => hs (by rw [h]; decide)
    have h7 : lowerStr s ≠ "unknown" := fun h => hs (by rw [h]; decide)
    simp only [severityOrderJS, Option.getD_some]
    rw [if_neg h1, if_neg h2, if_neg h3, if_neg h4, if_neg h5, if_neg h6, if_neg h7,
      if_pos hp]

/-- Witness for the amended C3 at concrete inputs: case-insensitivity at
`"HIGH"`/`"high"`, the default clause at `"bogus"`, and the inherited-member
clause at `"CONSTRUCTOR"`, whose lower-casing is the inherited key
`constructor`. -/
theorem severityOrderJS_spec_witness :
    severityOrderJS (some "HIGH") = severityOrderJS (some "high") ∧
    severityOrderJS (some "bogus") = .rank 0 ∧
    severityOrderJS (some "CONSTRUCTOR") = .protoMember (lowerStr "CONSTRUCTOR") :=
  ⟨severityOrderJS_spec.2.2.2.2.2.2.2.2.2.1 "HIGH" "high" (by decide),
   severityOrderJS_spec.2.2.2.2.2.2.2.2.2.2.1 "bogus" (by decide) (by decide),
   severityOrderJS_spec.2.2.2.2.2.2.2.2.2.2.2.1 "CONSTRUCTOR" (by decide) (by decide)⟩

/-- C9: `licenseNames` returns `[]` on a non-list input; for each entry of a
list input it takes the identifier field, else the name field, else the
expression field, in that priority order (under JS truthiness), and an
entry matching none of these contributes nothing. -/
theorem licenseNames_spec :
    licenseNames none = [] ∧
    (∀ (l : LicenseEntry) (ls : List LicenseEntry) (s : String),
      l.license.bind LicenseInner.id = some s → s ≠ "" →
      licenseNames (some (l :: ls)) = s :: licenseNames (some ls)) ∧
    (∀ (l : LicenseEntry) (ls : List LicenseEntry) (s : String),
      strTruthy (l.license.bind LicenseInner.id) = false →
      l.license.bind LicenseInner.name = some s → s ≠ "" →
      licenseNames (some (l :: ls)) = s :: licenseNames (some ls)) ∧
    (∀ (l : LicenseEntry) (ls : List LicenseEntry) (s : String),
      strTruthy (l.license.bind LicenseInner.id) = false →
      strTruthy (l.license.bind LicenseInner.name) = false →
      l.expression = some s → s ≠ "" →
      licenseNames (some (l :: ls)) = s :: licenseNames (some ls)) ∧
    (∀ (l : LicenseEntry) (ls : List LicenseEntry),
      strTruthy (l.license.bind LicenseInner.id) = false →
      strTruthy (l.license.bind LicenseInner.name) = false →
      strTruthy l.expression = false →
      licenseNames (some (l :: ls)) = licenseNames (some ls)) := by
  refine ⟨rfl, ?_, ?_, ?_, ?_⟩
  · intro l ls s hid hs
    have ht : strTruthy (l.license.bind LicenseInner.id) = true := by
      rw [hid]; simpa [strTruthy] using hs
    have hts : strTruthy (some s) = true := by simp [strTruthy, hs]
    simp [licenseNames, licenseEntryName, List.filterMap_cons, ht, hid, hts]
  · intro l ls s hidf hname hs
    have ht : strTruthy (l.license.bind LicenseInner.name) = true := by
      rw [hname]; simpa [strTruthy] using hs
    have hts : strTruthy (some s) = true := by simp [strTruthy, hs]
    simp [licenseNames, licenseEntryName, List.filterMap_cons, hidf, ht, hname, hts]
  · intro l ls s hidf hnamef hexp hs
    have ht : strTruthy l.expression = true := by
      rw [hexp]; simpa [strTruthy] using hs
    have hts : strTruthy (some s) = true := by simp [strTruthy, hs]
    simp [licenseNames, licenseEntryName, List.filterMap_cons, hidf, hnamef, ht, hexp, hts]
  · intro l ls hidf hnamef hexpf
    simp [licenseNames, licenseEntryName, hidf, hnamef, hexpf]

/-- Witness for C9 at concrete entries: an id-bearing entry contributes its
id ahead of a name, and an entry with no usable field contributes nothing. -/
theorem licenseNames_spec_witness :
    licenseNames (some [⟨some ⟨some "MIT", some "The MIT License"⟩, none⟩]) = ["MIT"] ∧
    licenseNames (some [⟨some ⟨none, none⟩, some ""⟩]) = [] := by
  constructor
  · exact licenseNames_spec.2.1 ⟨some ⟨some "MIT", some "The MIT License"⟩, none⟩ [] "MIT"
      (by decide) (by decide)
  · exact licenseNames_spec.2.2.2.2 ⟨some ⟨none, none⟩, some ""⟩ []
      (by decide) (by decide) (by decide)

/-- C7: `fixAvailabilityRate` equals `round(100 * countWithFix / total)`
where `countWithFix` counts items with a non-empty `fixedVersions` list, is
`0` when there are no items, and the formula is monotone non-decreasing in
the count when the total is held fixed. -/
theorem fixAvailabilityRate_spec :
    (∀ items : List VulnRecord,
      fixAvailabilityRate items = rateFormula (countWithFix items) items.length) ∧
    fixAvailabilityRate [] = 0 ∧
    (∀ t c c' : Nat, c ≤ c' → rateFormula c t ≤ rateFormula c' t) := by
  refine ⟨fun items => rfl, rfl, ?_⟩
  intro t c c' h
  unfold rateFormula
  by_cases ht : t = 0
  · simp [ht]
  · rw [if_neg ht, if_neg ht]
    have htp : (0 : ℚ) < (t : ℚ) := by
      exact_mod_cast Nat.pos_of_ne_zero ht
    apply Int.floor_le_floor
    have hdiv : (c : ℚ) / (t : ℚ) ≤ (c' : ℚ) / (t : ℚ) :=
      (div_le_div_iff_of_pos_right htp).mpr (by exact_mod_cast h)
    nlinarith [hdiv]

/-- Witness for C7: monotonicity applied at count 1 versus 2 of total 3. -/
theorem fixAvailabilityRate_spec_witness :
    rateFormula 1 3 ≤ rateFormula 2 3 :=
  fixAvailabilityRate_spec.2.2 3 1 2 (by decide)

/-- Length of one vulnerability's record list: one per usable reference,
one placeholder record when there are none. -/
theorem vulnRecords_length (dsid : String) (comps : List Component) (v : Vuln) :
    (vulnRecords dsid comps v).length = max 1 (affectRefs v).length := by
  unfold vulnRecords vulnTargets
  by_cases h : (affectRefs v).isEmpty
  · rw [if_pos h, List.isEmpty_iff.mp h]
    rfl
  · rw [if_neg h]
    have hne : affectRefs v ≠ [] := fun hh => h (by rw [hh]; rfl)
    have hpos : 1 ≤ (affectRefs v).length := List.length_pos.mpr hne
    simp [Nat.max_eq_right hpos]

/-- C1: `parseCycloneDX` emits exactly one record per (vulnerability,
usable affected reference) pair — the total item count is the sum over
vulnerabilities of `max 1 (number of refs)`; a vulnerability whose affects
list resolves to zero references yields exactly one record whose component,
version and purl are all null; one with two references yields exactly two
records. -/
theorem parseCycloneDX_one_record_per_pair :
    (∀ (json : CycloneDoc) (dsid : String),
      (parseCycloneDX json dsid).items.length =
        ((json.vulnerabilities.getD []).map (fun v => max 1 (affectRefs v).length)).sum) ∧
    (∀ (dsid : String) (comps : List Component) (v : Vuln), affectRefs v ≠ [] →
      vulnRecords dsid comps v =
        (affectRefs v).map (fun r => vulnRecord dsid comps v (some r))) ∧
    (∀ (dsid : String) (comps : List Component) (v : Vuln), affectRefs v = [] →
      vulnRecords dsid comps v = [vulnRecord dsid comps v none] ∧
      (vulnRecord dsid comps v none).component = none ∧
      (vulnRecord dsid comps v none).version = none ∧
      (vulnRecord dsid comps v none).purl = none) ∧
    (∀ (dsid : String) (comps : List Component) (v : Vuln),
      (affectRefs v).length = 2 → (vulnRecords dsid comps v).length = 2) := by
  refine ⟨?_, ?_, ?_, ?_⟩
  · intro json dsid
    show ((json.vulnerabilities.getD []).foldr
        (fun v acc => vulnRecords dsid (json.components.getD []) v ++ acc) []).length = _
    induction json.vulnerabilities.getD [] with
    | nil => rfl
    | cons v vs ih =>
      simp only [List.foldr_cons, List.length_append, List.map_cons, List.sum_cons, ih,
        vulnRecords_length]
  · intro dsid comps v h
    unfold vulnRecords vulnTargets
    rw [if_neg (by simpa [List.isEmpty_iff] using h), List.map_map]
    rfl
  · intro dsid comps v h
    refine ⟨by unfold vulnRecords vulnTargets; rw [if_pos (by simp [h])]; rfl, rfl, rfl, rfl⟩
  · intro dsid comps v h
    rw [vulnRecords_length, h]
    decide

/-- Witness for C1: a concrete document with one vulnerability affecting two
components and one affecting none has 2 + 1 items; the zero-affects
vulnerability's single record has empty component context. -/
theorem parseCycloneDX_one_record_per_pair_witness :
    (parseCycloneDX
      ⟨some [⟨some "r1", none, none, some "a", some "1", none, none⟩,
             ⟨some "r2", none, none, some "b", some "2", none, none⟩],
       some [⟨some "CVE-2024-0001", none, some "critical", none, none,
              some [⟨some "r1"⟩, ⟨some "r2"⟩], none, none, none, none, none, none⟩,
             ⟨some "CVE-2024-0002", none, some "low", none, none,
              none, none, none, none, none, none, none⟩],
       none⟩ "d").items.length = 3 ∧
    (vulnRecords "d" []
      ⟨some "CVE-2024-0002", none, some "low", none, none,
       none, none, none, none, none, none, none⟩) =
      [vulnRecord "d" []
        ⟨some "CVE-2024-0002", none, some "low", none, none,
         none, none, none, none, none, none, none⟩ none] ∧
    (vulnRecords "d" []
      ⟨some "CVE-2024-0001", none, some "critical", none, none,
       some [⟨some "r1"⟩, ⟨some "r2"⟩], none, none, none, none, none, none⟩).length = 2 := by
  refine ⟨?_, ?_, ?_⟩
  · rw [parseCycloneDX_one_record_per_pair.1]
    decide
  · exact (parseCycloneDX_one_record_per_pair.2.2.1 "d" []
      ⟨some "CVE-2024-0002", none, some "low", none, none,
       none, none, none, none, none, none, none⟩ (by decide)).1
  · exact parseCycloneDX_one_record_per_pair.2.2.2 "d" []
      ⟨some "CVE-2024-0001", none, some "critical", none, none,
       some [⟨some "r1"⟩, ⟨some "r2"⟩], none, none, none, none, none, none⟩ (by decide)

/-- C8: every record of a vulnerability resolves its severity as the
explicit `severity` field when truthy, else the severity of the CVSS pick
when truthy, else `UNKNOWN`, always upper-cased; Scenario E (only rating
`baseScore 9.1`, `baseSeverity "CRITICAL"`, no top-level severity) yields
severity `CRITICAL` and cvss `9.1`. -/
theorem severity_resolution_spec :
    (∀ (dsid : String) (comps : List Component) (v : Vuln) (r : VulnRecord),
      r ∈ vulnRecords dsid comps v →
      (strTruthy v.severity = true → r.severity = upperStr (v.severity.getD "")) ∧
      (strTruthy v.severity = false → ∀ p, pickCVSS (effRatings v) = some p →
        p.severity ≠ "" → r.severity = upperStr p.severity) ∧
      (strTruthy v.severity = false → pickCVSS (effRatings v) = none →
        r.severity = "UNKNOWN") ∧
      (strTruthy v.severity = false → ∀ p, pickCVSS (effRatings v) = some p →
        p.severity = "" → r.severity = "UNKNOWN")) ∧
    vulnRecords "d" [] vulnScenE = [vulnRecord "d" [] vulnScenE none] ∧
    (vulnRecord "d" [] vulnScenE none).severity = "CRITICAL" ∧
    (vulnRecord "d" [] vulnScenE none).cvss = some 9.1 := by
  have hunk : upperStr "UNKNOWN" = "UNKNOWN" := by decide
  refine ⟨?_, rfl, by decide, rfl⟩
  intro dsid comps v r hr
  obtain ⟨t, _, rfl⟩ := List.mem_map.mp hr
  have hsev : (vulnRecord dsid comps v t).severity = resolvedSeverity v := rfl
  refine ⟨?_, ?_, ?_, ?_⟩
  · intro hv
    rw [hsev]
    simp [resolvedSeverity, hv]
  · intro hv p hp hps
    have h2 : strTruthy (some p.severity) = true := by simp [strTruthy, hps]
    rw [hsev]
    simp [resolvedSeverity, hv, hp, h2]
  · intro hv hp
    have h3 : strTruthy (none : Option String) = false := rfl
    rw [hsev]
    simp [resolvedSeverity, hv, hp, h3, hunk]
  · intro hv p hp hps
    have h4 : strTruthy (some p.severity) = false := by simp [strTruthy, hps]
    rw [hsev]
    simp [resolvedSeverity, hv, hp, h4, hunk]

/-- Witness for C8: the explicit-severity clause applied to a concrete
vulnerability whose `severity` field is `"high"`. -/
theorem severity_resolution_spec_witness :
    (vulnRecord "d" []
      ⟨none, none, some "high", none, none, none, none, none, none, none, none, none⟩
      none).severity =
      upperStr ((some "high").getD "") :=
  (severity_resolution_spec.1 "d" []
    ⟨none, none, some "high", none, none, none, none, none, none, none, none, none⟩
    (vulnRecord "d" []
      ⟨none, none, some "high", none, none, none, none, none, none, none, none, none⟩ none)
    (by decide)).1 (by decide)

/-- Counterexample to C2 as stated: on a vulnerability where both the
keyword scan (recommendation `"Upgrade to 2.0"`) and the explicit
`analysis.fixedIn = "2.0"` apply, `extractFixedVersions` returns the
generic marker `["*"]`, not the explicit value `["2.0"]`. -/
theorem extractFixedVersions_scan_wins_counterexample :
    sourceScanHit (some (StrOrList.one "Upgrade to 2.0")) = true ∧
    vulnBothApply.analysis.bind Analysis.fixedIn = some (StrOrList.one "2.0") ∧
    toListNorm (StrOrList.one "2.0") = ["2.0"] ∧
    extractFixedVersions vulnBothApply = ["*"] ∧
    (["*"] : List String) ≠ ["2.0"] := by
  decide

/-- C2 (amended): when both the keyword scan of the free-text fields and an
explicit `analysis.fixedIn` / `remediation.versions` field would apply, the
keyword scan takes precedence and `extractFixedVersions` returns `["*"]`;
the explicit field's value (normalized to a list) is returned only when the
keyword scan finds no indicator. -/
theorem extractFixedVersions_precedence :
    (∀ v : Vuln, (fixSources v).any sourceScanHit = true →
      extractFixedVersions v = ["*"]) ∧
    (∀ (v : Vuln) (fi : StrOrList), (fixSources v).any sourceScanHit = false →
      v.analysis.bind Analysis.fixedIn = some fi → strOrListTruthy fi = true →
      extractFixedVersions v = toListNorm fi) ∧
    (∀ (v : Vuln) (rem : Remediation) (ver : StrOrList),
      (fixSources v).any sourceScanHit = false →
      (v.analysis.bind Analysis.fixedIn = none ∨
        ∃ fi, v.analysis.bind Analysis.fixedIn = some fi ∧ strOrListTruthy fi = false) →
      v.remediation = some rem → rem.versions = some ver → strOrListTruthy ver = true →
      extractFixedVersions v = toListNorm ver) := by
  refine ⟨?_, ?_, ?_⟩
  · intro v h
    simp [extractFixedVersions, h]
  · intro v fi hscan hfi ht
    simp [extractFixedVersions, hscan, hfi, ht]
  · intro v rem ver hscan hfi hrem hver hvt
    rcases hfi with hfi | ⟨fi, hfi, hfit⟩
    · simp [extractFixedVersions, extractFixedVersions.extractFixedVersionsRemediation,
        hscan, hfi, hrem, hver, hvt]
    · simp [extractFixedVersions, extractFixedVersions.extractFixedVersionsRemediation,
        hscan, hfi, hfit, hrem, hver, hvt]

/-- Witness for the amended C2 at concrete inputs: the scan clause on
`vulnBothApply` and the explicit-field clause on `vulnExplicitOnly`. -/
theorem extractFixedVersions_precedence_witness :
    extractFixedVersions vulnBothApply = ["*"] ∧
    extractFixedVersions vulnExplicitOnly = toListNorm (StrOrList.one "2.0") :=
  ⟨extractFixedVersions_precedence.1 vulnBothApply (by decide),
   extractFixedVersions_precedence.2.1 vulnExplicitOnly (StrOrList.one "2.0")
     (by decide) (by decide) (by decide)⟩

/-- Counterexample to C5 as stated: for
`reports/sbom-myapp.cyclonedx.json` the resolver keeps the trailing
`.cyclonedx` (the code removes only the literal substring
`.cyclonedx.json`, which extension stripping has already truncated) and
returns `myapp-cyclonedx`, while stripping the suffix and cleaning, as the
claim describes, would give `myapp`. -/
theorem extractDatasetId_suffix_retained_counterexample :
    extractDatasetId "reports/sbom-myapp.cyclonedx.json" = some "myapp-cyclonedx" ∧
    (⟨cleanChars "myapp".data⟩ : String) = "myapp" ∧
    ("myapp-cyclonedx" : String) ≠ "myapp" := by
  decide

/-- C5 (amended): for a path whose extension-stripped basename starts with
`sbom-`, the resolver strips that prefix — a trailing `.cyclonedx` left by
extension stripping is retained, since only the literal substring
`.cyclonedx.json` is removed — then applies the keyword table in order
(`stable`; `arm64`; `amd64` with `backend`/`frontend` giving
`backend-amd64`/`frontend-amd64`, else `amd64`; `backend`; `frontend`),
otherwise returns the cleaned name (the retained suffix cleaning to
`-cyclonedx`) with disallowed characters replaced by `-`; the retained
suffix matches no keyword, and `reports/sbom-backend-amd64.cyclonedx.json`
still resolves to `backend-amd64`. -/
theorem extractDatasetId_strategy1_spec :
    (∀ p : String, "sbom-".data.isPrefixOf ((fileNameOf p).map Char.toLower) = true →
      extractDatasetId p = some (keywordResolve (imageNameOf ((fileNameOf p).map Char.toLower)))) ∧
    (∀ img : List Char, containsSub img "stable".data = true →
      keywordResolve img = "stable") ∧
    (∀ img : List Char, containsSub img "stable".data = false →
      containsSub img "arm64".data = true → keywordResolve img = "arm64") ∧
    (∀ img : List Char, containsSub img "stable".data = false →
      containsSub img "arm64".data = false → containsSub img "amd64".data = true →
      containsSub img "backend".data = true → keywordResolve img = "backend-amd64") ∧
    (∀ img : List Char, containsSub img "stable".data = false →
      containsSub img "arm64".data = false → containsSub img "amd64".data = true →
      containsSub img "backend".data = false → containsSub img "frontend".data = true →
      keywordResolve img = "frontend-amd64") ∧
    (∀ img : List Char, containsSub img "stable".data = false →
      containsSub img "arm64".data = false → containsSub img "amd64".data = true →
      containsSub img "backend".data = false → containsSub img "frontend".data = false →
      keywordResolve img = "amd64") ∧
    (∀ img : List Char, containsSub img "stable".data = false →
      containsSub img "arm64".data = false → containsSub img "amd64".data = false →
      containsSub img "backend".data = true → keywordResolve img = "backend") ∧
    (∀ img : List Char, containsSub img "stable".data = false →
      containsSub img "arm64".data = false → containsSub img "amd64".data = false →
      containsSub img "backend".data = false → containsSub img "frontend".data = true →
      keywordResolve img = "frontend") ∧
    (∀ img : List Char, containsSub img "stable".data = false →
      containsSub img "arm64".data = false → containsSub img "amd64".data = false →
      containsSub img "backend".data = false → containsSub img "frontend".data = false →
      keywordResolve img = ⟨cleanChars img⟩) ∧
    extractDatasetId "reports/sbom-backend-amd64.cyclonedx.json" = some "backend-amd64" := by
  refine ⟨?_, ?_, ?_, ?_, ?_, ?_, ?_, ?_, ?_, by decide⟩
  · intro p h
    simp [extractDatasetId, h]
  · intro img h1
    simp [keywordResolve, h1]
  · intro img h1 h2
    simp [keywordResolve, h1, h2]
  · intro img h1 h2 h3 h4
    simp [keywordResolve, h1, h2, h3, h4]
  · intro img h1 h2 h3 h4 h5
    simp [keywordResolve, h1, h2, h3, h4, h5]
  · intro img h1 h2 h3 h4 h5
    simp [keywordResolve, h1, h2, h3, h4, h5]
  · intro img h1 h2 h3 h4
    simp [keywordResolve, h1, h2, h3, h4]
  · intro img h1 h2 h3 h4 h5
    simp [keywordResolve, h1, h2, h3, h4, h5]
  · intro img h1 h2 h3 h4 h5
    simp [keywordResolve, h1, h2, h3, h4, h5]

/-- Witness for the amended C5: the Strategy-1 clause and the
`backend`+`amd64` keyword clause applied to
`reports/sbom-backend-amd64.cyclonedx.json`. -/
theorem extractDatasetId_strategy1_spec_witness :
    extractDatasetId "reports/sbom-backend-amd64.cyclonedx.json" =
      some (keywordResolve (imageNameOf
        ((fileNameOf "reports/sbom-backend-amd64.cyclonedx.json").map Char.toLower))) ∧
    keywordResolve "backend-amd64.cyclonedx".data = "backend-amd64" :=
  ⟨extractDatasetId_strategy1_spec.1 "reports/sbom-backend-amd64.cyclonedx.json" (by decide),
   extractDatasetId_strategy1_spec.2.2.2.1 "backend-amd64.cyclonedx".data
     (by decide) (by decide) (by decide) (by decide)⟩

/-- C10: a discovered file whose parse contributes zero records — a parse
failure, a structurally valid document with no vulnerabilities, or any
`.xml` file handled by the SPDX stub — adds nothing to the output's
datasets or items: the pipeline output is the same as if the file had never
been discovered. -/
theorem parseSBOMFiles_skips_empty :
    (∀ (l₁ l₂ : List FileEntry) (f : FileEntry), itemsOfFile f = [] →
      parseSBOMFiles (l₁ ++ f :: l₂) = parseSBOMFiles (l₁ ++ l₂)) ∧
    (∀ f : FileEntry, extOf f.path = ".xml" → itemsOfFile f = []) ∧
    (∀ (f : FileEntry) (d : CycloneDoc), f.doc = some d →
      (d.vulnerabilities = none ∨ d.vulnerabilities = some []) →
      itemsOfFile f = []) := by
  refine ⟨?_, ?_, ?_⟩
  · intro l₁ l₂ f hf
    have hstep : ∀ acc : List Dataset × List VulnRecord, collectStep acc f = acc := by
      intro acc
      unfold itemsOfFile at hf
      unfold collectStep
      cases hp : parseSBOM f with
      | none => rfl
      | some parsed =>
        rw [hp] at hf
        simp at hf
        simp [hf]
    unfold parseSBOMFiles collectFiles
    rw [List.foldl_append, List.foldl_append, List.foldl_cons, hstep]
  · intro f h
    unfold itemsOfFile parseSBOM
    rw [h]
    rw [if_neg (by decide), if_pos rfl]
    rfl
  · intro f d hd hv
    unfold itemsOfFile parseSBOM
    have hitems : (parseCycloneDX d (datasetIdOf f.path)).items = [] := by
      rcases hv with hv | hv <;> simp [parseCycloneDX, hv]
    by_cases h1 : extOf f.path = ".json" ∨ extOf f.path = ".yaml" ∨ extOf f.path = ".yml"
    · rw [if_pos h1, hd]
      simpa using hitems
    · rw [if_neg h1]
      by_cases h2 : extOf f.path = ".xml"
      · rw [if_pos h2]
        rfl
      · rw [if_neg h2]

/-- Witness for C10 at concrete inputs: dropping an `.xml` file from a
two-file list leaves the pipeline output unchanged, and that file indeed
contributes zero items. -/
theorem parseSBOMFiles_skips_empty_witness :
    parseSBOMFiles
      [⟨"a/sbom-backend.json", some ⟨none, none, none⟩⟩, ⟨"b/sbom-x.xml", none⟩] =
      parseSBOMFiles [⟨"a/sbom-backend.json", some ⟨none, none, none⟩⟩] ∧
    itemsOfFile ⟨"b/sbom-x.xml", none⟩ = [] := by
  constructor
  · exact parseSBOMFiles_skips_empty.1 [⟨"a/sbom-backend.json", some ⟨none, none, none⟩⟩] []
      ⟨"b/sbom-x.xml", none⟩
      (parseSBOMFiles_skips_empty.2.1 ⟨"b/sbom-x.xml", none⟩ (by decide))
  · exact parseSBOMFiles_skips_empty.2.1 ⟨"b/sbom-x.xml", none⟩ (by decide)

/-- The selector loop is the fold of the best-so-far update over the
surviving candidate objects. -/
theorem pickCVSS_eq_foldl (scores : List Rating) :
    pickCVSS scores = (pickedObjs scores).foldl pickStep none := by
  suffices h : ∀ (l : List Rating) (b : Option CVSSPick),
      l.foldl (fun best r =>
        if ratingUsable r then
          match best with
          | none => some (mkPick r)
          | some bb => if pickKey (mkPick r) > pickKey bb then some (mkPick r) else some bb
        else best) b = ((l.filter ratingUsable).map mkPick).foldl pickStep b by
    exact h scores none
  intro l
  induction l with
  | nil => intro b; rfl
  | cons r t ih =>
    intro b
    by_cases hr : ratingUsable r
    · simp only [List.foldl_cons, List.filter_cons, hr, if_true, List.map_cons, ih]
      rfl
    · simp only [List.foldl_cons, List.filter_cons, hr, Bool.false_eq_true, if_false, ih]

/-- Folding the best-so-far update from a non-null accumulator never
returns null. -/
theorem foldl_pickStep_ne_none (os : List CVSSPick) (b : CVSSPick) :
    os.foldl pickStep (some b) ≠ none := by
  induction os generalizing b with
  | nil => simp
  | cons o t ih =>
    simp only [List.foldl_cons, pickStep]
    by_cases h : pickKey o > pickKey b
    · rw [if_pos h]; exact ih o
    · rw [if_neg h]; exact ih b

/-- The fold result is the first candidate achieving the maximal key:
everything before it is strictly smaller, everything after it is no
larger. -/
theorem foldl_pickStep_first_max :
    ∀ (os : List CVSSPick) (p : CVSSPick), os.foldl pickStep none = some p →
      ∃ l₁ l₂, os = l₁ ++ p :: l₂ ∧
        (∀ o ∈ l₁, pickKey o < pickKey p) ∧ (∀ o ∈ l₂, pickKey o ≤ pickKey p) := by
  intro os
  induction os using List.reverseRecOn with
  | nil => intro p h; simp at h
  | append_singleton os o ih =>
    intro p h
    rw [List.foldl_append, List.foldl_cons, List.foldl_nil] at h
    cases hprev : os.foldl pickStep none with
    | none =>
      have hos : os = [] := by
        cases os with
        | nil => rfl
        | cons x t =>
          exact absurd hprev (by
            rw [List.foldl_cons]
            exact foldl_pickStep_ne_none t x)
      rw [hprev] at h
      simp only [pickStep] at h
      have hop : o = p := Option.some.inj h
      refine ⟨[], [], ?_, by simp, by simp⟩
      rw [hos, hop]
    | some q =>
      rw [hprev] at h
      obtain ⟨l₁, l₂, heq, hlt, hle⟩ := ih q hprev
      simp only [pickStep] at h
      by_cases hko : pickKey o > pickKey q
      · rw [if_pos hko] at h
        have hop : o = p := Option.some.inj h
        refine ⟨os, [], by rw [← hop], ?_, by simp⟩
        intro x hx
        rw [← hop]
        rw [heq] at hx
        rcases List.mem_append.mp hx with hx | hx
        · exact lt_trans (hlt x hx) hko
        · rcases List.mem_cons.mp hx with hx | hx
          · rw [hx]; exact hko
          · exact lt_of_le_of_lt (hle x hx) hko
      · rw [if_neg hko] at h
        have hqp : q = p := Option.some.inj h
        refine ⟨l₁, l₂ ++ [o], by rw [← hqp, heq]; simp, by rw [← hqp]; exact hlt, ?_⟩
        intro x hx
        rw [← hqp]
        rcases List.mem_append.mp hx with hx | hx
        · exact hle x hx
        · rw [List.mem_singleton.mp hx]
          exact le_of_not_lt hko

/-- C4: `pickCVSS` returns null exactly when no candidate is usable;
otherwise it returns the first-seen candidate object with the strictly
highest comparison key (a missing score counting as 0 for the comparison
only, the output keeping the original possibly-null score), so the pick's
key is never below any candidate's supplied score. -/
theorem pickCVSS_spec :
    (∀ scores : List Rating,
      pickCVSS scores = none ↔ ∀ r ∈ scores, ratingUsable r = false) ∧
    (∀ (scores : List Rating) (p : CVSSPick), pickCVSS scores = some p →
      ∃ l₁ l₂, pickedObjs scores = l₁ ++ p :: l₂ ∧
        (∀ o ∈ l₁, pickKey o < pickKey p) ∧ (∀ o ∈ l₂, pickKey o ≤ pickKey p)) ∧
    (∀ r : Rating, (mkPick r).score = ratingScore r) ∧
    (∀ (scores : List Rating) (p : CVSSPick) (r : Rating) (s : ℚ),
      pickCVSS scores = some p → r ∈ scores → ratingScore r = some s →
      s ≤ pickKey p) := by
  have hmem : ∀ (scores : List Rating) (p : CVSSPick) (o : CVSSPick),
      pickCVSS scores = some p → o ∈ pickedObjs scores → pickKey o ≤ pickKey p := by
    intro scores p o hp ho
    rw [pickCVSS_eq_foldl] at hp
    obtain ⟨l₁, l₂, heq, hlt, hle⟩ := foldl_pickStep_first_max _ _ hp
    rw [heq] at ho
    rcases List.mem_append.mp ho with ho | ho
    · exact le_of_lt (hlt o ho)
    · rcases List.mem_cons.mp ho with ho | ho
      · rw [ho]
      · exact hle o ho
  refine ⟨?_, ?_, fun r => rfl, ?_⟩
  · intro scores
    rw [pickCVSS_eq_foldl]
    constructor
    · intro h r hr
      by_contra hu
      have hu' : ratingUsable r = true := by
        cases hru : ratingUsable r
        · exact absurd hru hu
        · rfl
      cases hobj : pickedObjs scores with
      | nil =>
        have : r ∈ scores.filter ratingUsable := List.mem_filter.mpr ⟨hr, hu'⟩
        rw [show scores.filter ratingUsable = [] by
          simpa [pickedObjs] using congrArg List.length hobj] at this
        simp at this
      | cons o t =>
        rw [hobj, List.foldl_cons] at h
        exact absurd h (foldl_pickStep_ne_none t o)
    · intro h
      have hnil : pickedObjs scores = [] := by
        simp only [pickedObjs]
        rw [List.filter_eq_nil_iff.mpr ?_]
        · rfl
        · intro r hr
          simp [h r hr]
      rw [hnil]
      rfl
  · intro scores p hp
    rw [pickCVSS_eq_foldl] at hp
    exact foldl_pickStep_first_max _ _ hp
  · intro scores p r s hp hr hs
    have hu : ratingUsable r = true := by
      simp [ratingUsable, hs]
    have ho : mkPick r ∈ pickedObjs scores :=
      List.mem_map.mpr ⟨r, List.mem_filter.mpr ⟨hr, hu⟩, rfl⟩
    have hkey := hmem scores p (mkPick r) hp ho
    have hk : pickKey (mkPick r) = s := by
      simp [pickKey, mkPick, hs]
    rw [hk] at hkey
    exact hkey

/-- Witness for C4 at concrete rating lists: a list whose only entry has an
empty severity and no score yields null, and on a severity-only candidate
followed by a score-5 candidate the pick's key dominates the supplied
score 5. -/
theorem pickCVSS_spec_witness :
    pickCVSS [⟨none, none, some "", none, none, none⟩] = none ∧
    (5 : ℚ) ≤ pickKey (mkPick ⟨some 5, none, none, none, none, none⟩) := by
  constructor
  · exact (pickCVSS_spec.1 [⟨none, none, some "", none, none, none⟩]).mpr
      (by intro r hr; rw [List.mem_singleton.mp hr]; decide)
  · exact pickCVSS_spec.2.2.2
      [⟨none, none, some "HIGH", none, none, none⟩, ⟨some 5, none, none, none, none, none⟩]
      (mkPick ⟨some 5, none, none, none, none, none⟩)
      ⟨some 5, none, none, none, none, none⟩ 5
      (by decide) (by decide) (by decide)

/-- Membership in a JS-set append. -/
theorem setAdd_mem (l : List String) (x y : String) :
    y ∈ setAdd l x ↔ y ∈ l ∨ y = x := by
  unfold setAdd
  by_cases h : l.contains x
  · rw [if_pos h]
    constructor
    · exact fun hy => Or.inl hy
    · rintro (hy | rfl)
      · exact hy
      · exact List.mem_of_elem_eq_true h
  · rw [if_neg h]
    simp

/-- A JS-set append keeps the element list duplicate-free. -/
theorem setAdd_nodup (l : List String) (x : String) (h : l.Nodup) :
    (setAdd l x).Nodup := by
  unfold setAdd
  by_cases hc : l.contains x
  · rwa [if_pos hc]
  · rw [if_neg hc]
    refine List.nodup_append.mpr ⟨h, List.nodup_singleton x, ?_⟩
    intro a ha hb
    rw [List.mem_singleton.mp hb] at ha
    exact absurd (List.elem_eq_true_of_mem ha) (by simpa using hc)

/-- The accumulation step keeps the group id. -/
theorem stepCVE_id (g : CVEEntry) (it : VulnRecord) : (stepCVE g it).id = g.id := rfl

/-- Folding the accumulation step keeps the group id. -/
theorem foldl_stepCVE_id (l : List VulnRecord) (g : CVEEntry) :
    (l.foldl stepCVE g).id = g.id := by
  induction l generalizing g with
  | nil => rfl
  | cons it t ih => rw [List.foldl_cons, ih, stepCVE_id]

/-- Folding the accumulation step adds the list length to the count. -/
theorem foldl_stepCVE_count (l : List VulnRecord) (g : CVEEntry) :
    (l.foldl stepCVE g).count = g.count + l.length := by
  induction l generalizing g with
  | nil => rfl
  | cons it t ih =>
    rw [List.foldl_cons, ih]
    show g.count + 1 + t.length = g.count + (t.length + 1)
    omega

/-- Folded dataset membership: the base set plus the items' datasets. -/
theorem foldl_stepCVE_datasets_mem (l : List VulnRecord) (g : CVEEntry) (x : String) :
    x ∈ (l.foldl stepCVE g).datasets ↔
      x ∈ g.datasets ∨ x ∈ l.map VulnRecord.dataset := by
  induction l generalizing g with
  | nil => simp
  | cons it t ih =>
    rw [List.foldl_cons, ih]
    show x ∈ setAdd g.datasets it.dataset ∨ _ ↔ _
    rw [setAdd_mem]
    simp
    tauto

/-- Folding keeps the dataset list duplicate-free. -/
theorem foldl_stepCVE_datasets_nodup (l : List VulnRecord) (g : CVEEntry)
    (h : g.datasets.Nodup) : (l.foldl stepCVE g).datasets.Nodup := by
  induction l generalizing g with
  | nil => exact h
  | cons it t ih =>
    rw [List.foldl_cons]
    exact ih _ (setAdd_nodup _ _ h)

/-- The max-CVSS update of one accumulation step, written out. -/
theorem stepCVE_maxCVSS (g : CVEEntry) (it : VulnRecord) :
    (stepCVE g it).maxCVSS = match it.cvss, g.maxCVSS with
      | none, m => m
      | some c, none => some c
      | some c, some m => some (max m c) := rfl

/-- The worst-rank update of one accumulation step, written out. -/
theorem stepCVE_worst (g : CVEEntry) (it : VulnRecord) :
    (stepCVE g it).worstSeverityRank =
      if (it.severityRank : Int) > g.worstSeverityRank then (it.severityRank : Int)
      else g.worstSeverityRank := rfl

/-- Every maximal CVSS value the fold reports was present in the base or in
some item. -/
theorem foldl_stepCVE_maxCVSS_src (l : List VulnRecord) :
    ∀ (g : CVEEntry) (c : ℚ), (l.foldl stepCVE g).maxCVSS = some c →
      g.maxCVSS = some c ∨ ∃ it ∈ l, it.cvss = some c := by
  induction l with
  | nil => exact fun g c h => Or.inl h
  | cons it t ih =>
    intro g c h
    rw [List.foldl_cons] at h
    rcases ih (stepCVE g it) c h with hg | ⟨it', hit', hc⟩
    · rw [stepCVE_maxCVSS] at hg
      cases hcv : it.cvss with
      | none =>
        rw [hcv] at hg
        exact Or.inl hg
      | some c' =>
        cases hgm : g.maxCVSS with
        | none =>
          rw [hcv, hgm] at hg
          simp at hg
          exact Or.inr ⟨it, List.mem_cons_self it t, by rw [hcv, hg]⟩
        | some m =>
          rw [hcv, hgm] at hg
          simp at hg
          rcases max_choice m c' with hmax | hmax
          · rw [hmax] at hg
            exact Or.inl (by rw [hg])
          · rw [hmax] at hg
            exact Or.inr ⟨it, List.mem_cons_self it t, by rw [hcv, hg]⟩
    · exact Or.inr ⟨it', List.mem_cons_of_mem it hit', hc⟩

/-- The folded maximum dominates the base maximum. -/
theorem foldl_stepCVE_maxCVSS_mono (l : List VulnRecord) :
    ∀ (g : CVEEntry) (m : ℚ), g.maxCVSS = some m →
      ∃ m', (l.foldl stepCVE g).maxCVSS = some m' ∧ m ≤ m' := by
  induction l with
  | nil => exact fun g m h => ⟨m, h, le_refl m⟩
  | cons it t ih =>
    intro g m h
    rw [List.foldl_cons]
    cases hcv : it.cvss with
    | none =>
      refine ih _ m ?_
      rw [stepCVE_maxCVSS, hcv, h]
    | some c' =>
      obtain ⟨m', hm', hle⟩ := ih (stepCVE g it) (max m c')
        (by rw [stepCVE_maxCVSS, hcv, h])
      exact ⟨m', hm', le_trans (le_max_left m c') hle⟩

/-- Every item's CVSS is dominated by the folded maximum. -/
theorem foldl_stepCVE_maxCVSS_dom (l : List VulnRecord) :
    ∀ (g : CVEEntry) (it : VulnRecord) (c : ℚ), it ∈ l → it.cvss = some c →
      ∃ m, (l.foldl stepCVE g).maxCVSS = some m ∧ c ≤ m := by
  induction l with
  | nil => intro g it c hit; exact absurd hit (List.not_mem_nil it)
  | cons x t ih =>
    intro g it c hit hc
    rw [List.foldl_cons]
    rcases List.mem_cons.mp hit with rfl | hit'
    · cases hgm : g.maxCVSS with
      | none =>
        exact foldl_stepCVE_maxCVSS_mono t _ c (by rw [stepCVE_maxCVSS, hc, hgm])
      | some m0 =>
        obtain ⟨m', hm', hle⟩ := foldl_stepCVE_maxCVSS_mono t (stepCVE g it) (max m0 c)
          (by rw [stepCVE_maxCVSS, hc, hgm])
        exact ⟨m', hm', le_trans (le_max_right m0 c) hle⟩
    · exact ih _ it c hit' hc

/-- The folded worst rank dominates the base value. -/
theorem foldl_stepCVE_worst_mono (l : List VulnRecord) :
    ∀ g : CVEEntry, g.worstSeverityRank ≤ (l.foldl stepCVE g).worstSeverityRank := by
  induction l with
  | nil => exact fun g => le_refl _
  | cons it t ih =>
    intro g
    rw [List.foldl_cons]
    refine le_trans ?_ (ih (stepCVE g it))
    rw [stepCVE_worst]
    by_cases h : (it.severityRank : Int) > g.worstSeverityRank
    · rw [if_pos h]; exact le_of_lt h
    · rw [if_neg h]

/-- Every item's rank is dominated by the folded worst rank. -/
theorem foldl_stepCVE_worst_dom (l : List VulnRecord) :
    ∀ (g : CVEEntry) (it : VulnRecord), it ∈ l →
      (it.severityRank : Int) ≤ (l.foldl stepCVE g).worstSeverityRank := by
  induction l with
  | nil => intro g it hit; exact absurd hit (List.not_mem_nil it)
  | cons x t ih =>
    intro g it hit
    rw [List.foldl_cons]
    rcases List.mem_cons.mp hit with rfl | hit'
    · refine le_trans ?_ (foldl_stepCVE_worst_mono t (stepCVE g it))
      rw [stepCVE_worst]
      by_cases h : (it.severityRank : Int) > g.worstSeverityRank
      · rw [if_pos h]
      · rw [if_neg h]; exact le_of_not_lt h
    · exact ih _ it hit'

/-- The folded worst rank is the base value or some item's rank. -/
theorem foldl_stepCVE_worst_src (l : List VulnRecord) :
    ∀ g : CVEEntry,
      (l.foldl stepCVE g).worstSeverityRank = g.worstSeverityRank ∨
      ∃ it ∈ l, (l.foldl stepCVE g).worstSeverityRank = (it.severityRank : Int) := by
  induction l with
  | nil => exact fun g => Or.inl rfl
  | cons it t ih =>
    intro g
    rw [List.foldl_cons]
    rcases ih (stepCVE g it) with hg | ⟨it', hit', h⟩
    · rw [hg, stepCVE_worst]
      by_cases h : (it.severityRank : Int) > g.worstSeverityRank
      · rw [if_pos h]
        exact Or.inr ⟨it, List.mem_cons_self it t, rfl⟩
      · rw [if_neg h]
        exact Or.inl rfl
    · exact Or.inr ⟨it', List.mem_cons_of_mem it hit', h⟩

/-- The id list after an upsert: unchanged when the id is present, else the
id is appended. -/
theorem upsertCVE_ids (it : VulnRecord) (id : String) :
    ∀ acc : List CVEEntry,
      (upsertCVE it id acc).map CVEEntry.id =
        if id ∈ acc.map CVEEntry.id then acc.map CVEEntry.id
        else acc.map CVEEntry.id ++ [id] := by
  intro acc
  induction acc with
  | nil => simp [upsertCVE, stepCVE_id, newCVE]
  | cons g gs ih =>
    by_cases h : g.id = id
    · have hc : id ∈ (g :: gs).map CVEEntry.id := by simp [← h]
      rw [if_pos hc]
      simp [upsertCVE, h, stepCVE_id]
    · simp only [upsertCVE, if_neg h, List.map_cons]
      by_cases h2 : id ∈ gs.map CVEEntry.id
      · have hc : id ∈ g.id :: gs.map CVEEntry.id := List.mem_cons_of_mem _ h2
        rw [if_pos hc, ih, if_pos h2]
      · have hc : id ∉ g.id :: gs.map CVEEntry.id := by
          rw [List.mem_cons]
          rintro (hh | hh)
          · exact h hh.symm
          · exact h2 hh
        rw [if_neg hc, ih, if_neg h2]
        rfl

/-- Where a member of an upsert comes from, given duplicate-free ids: an
untouched entry of another id, the updated entry of the given id, or a
freshly created entry when the id was absent. -/
theorem upsertCVE_mem (it : VulnRecord) (id : String) :
    ∀ acc : List CVEEntry, (acc.map CVEEntry.id).Nodup →
      ∀ g' ∈ upsertCVE it id acc,
        (g' ∈ acc ∧ g'.id ≠ id) ∨
        (∃ g ∈ acc, g.id = id ∧ g' = stepCVE g it) ∨
        (id ∉ acc.map CVEEntry.id ∧ g' = stepCVE (newCVE id) it) := by
  intro acc
  induction acc with
  | nil =>
    intro _ g' hg'
    rw [show upsertCVE it id [] = [stepCVE (newCVE id) it] from rfl] at hg'
    exact Or.inr (Or.inr ⟨by simp, List.mem_singleton.mp hg'⟩)
  | cons g gs ih =>
    intro hnd g' hg'
    have hnd' : (g.id :: gs.map CVEEntry.id).Nodup := by simpa using hnd
    have hgid : g.id ∉ gs.map CVEEntry.id := (List.nodup_cons.mp hnd').1
    simp only [upsertCVE] at hg'
    by_cases h : g.id = id
    · rw [if_pos h] at hg'
      rcases List.mem_cons.mp hg' with rfl | hg'
      · exact Or.inr (Or.inl ⟨g, List.mem_cons_self g gs, h, rfl⟩)
      · refine Or.inl ⟨List.mem_cons_of_mem g hg', ?_⟩
        intro hid
        exact hgid (by
          rw [h, ← hid]
          exact List.mem_map_of_mem CVEEntry.id hg')
    · rw [if_neg h] at hg'
      rcases List.mem_cons.mp hg' with rfl | hg'
      · exact Or.inl ⟨List.mem_cons_self g' gs, fun hh => h hh⟩
      · rcases ih (List.nodup_cons.mp hnd').2 g' hg' with
          ⟨hmem, hne⟩ | ⟨g0, hg0, hid0, heq⟩ | ⟨hnm, heq⟩
        · exact Or.inl ⟨List.mem_cons_of_mem _ hmem, hne⟩
        · exact Or.inr (Or.inl ⟨g0, List.mem_cons_of_mem _ hg0, hid0, heq⟩)
        · refine Or.inr (Or.inr ⟨?_, heq⟩)
          rw [List.map_cons, List.mem_cons]
          rintro (hh | hh)
          · exact h hh.symm
          · exact hnm hh

/-- Appending one record only extends its own id's group input. -/
theorem itemsForCVE_append (items : List VulnRecord) (it : VulnRecord) (id : String) :
    itemsForCVE (items ++ [it]) id =
      itemsForCVE items id ++ (if jsId it = id then [it] else []) := by
  unfold itemsForCVE
  rw [List.filter_append]
  congr 1
  by_cases h : jsId it = id
  · simp [List.filter_cons, h]
  · simp [List.filter_cons, h]

/-- Characterization of the grouping loop: the group ids are duplicate-free,
every CVE-pattern item id has a group, and every group is the fold of the
accumulation step over exactly its id's records. -/
theorem buildGroups_char (items : List VulnRecord) :
    ((buildGroups items).map CVEEntry.id).Nodup ∧
    (∀ it ∈ items, matchesCVE (jsId it) = true →
      jsId it ∈ (buildGroups items).map CVEEntry.id) ∧
    (∀ g ∈ buildGroups items, matchesCVE g.id = true ∧
      itemsForCVE items g.id ≠ [] ∧
      g = (itemsForCVE items g.id).foldl stepCVE (newCVE g.id)) := by
  induction items using List.reverseRecOn with
  | nil =>
    refine ⟨by simp [buildGroups], by simp, ?_⟩
    intro g hg
    exact absurd hg (by simp [buildGroups])
  | append_singleton items it ih =>
    obtain ⟨ihnd, ihcomp, ihchar⟩ := ih
    have hfold : buildGroups (items ++ [it]) =
        if matchesCVE (jsId it) then upsertCVE it (jsId it) (buildGroups items)
        else buildGroups items := by
      unfold buildGroups
      rw [List.foldl_append, List.foldl_cons, List.foldl_nil]
    by_cases hm : matchesCVE (jsId it) = true
    case neg =>
      rw [hfold, if_neg (by simpa using hm)]
      refine ⟨ihnd, ?_, ?_⟩
      · intro it' hit' hmt
        rcases List.mem_append.mp hit' with h | h
        · exact ihcomp it' h hmt
        · rw [List.mem_singleton.mp h] at hmt
          exact absurd hmt hm
      · intro g hg
        obtain ⟨h1, hne1, h2⟩ := ihchar g hg
        have hne : ¬(jsId it = g.id) := fun hh => hm (by rw [hh]; exact h1)
        refine ⟨h1, ?_, ?_⟩
        · rw [itemsForCVE_append, if_neg hne]
          simpa using hne1
        · rw [itemsForCVE_append, if_neg hne]
          simpa using h2
    case pos =>
      rw [hfold, if_pos hm]
      have hids := upsertCVE_ids it (jsId it) (buildGroups items)
      refine ⟨?_, ?_, ?_⟩
      · rw [hids]
        by_cases hin : jsId it ∈ (buildGroups items).map CVEEntry.id
        · rw [if_pos hin]; exact ihnd
        · rw [if_neg hin]
          rw [List.nodup_append]
          exact ⟨ihnd, List.nodup_singleton _, by
            intro a ha hb
            rw [List.mem_singleton.mp hb] at ha
            exact hin ha⟩
      · intro it' hit' hmt
        rw [hids]
        rcases List.mem_append.mp hit' with h | h
        · have hin' := ihcomp it' h hmt
          by_cases hin : jsId it ∈ (buildGroups items).map CVEEntry.id
          · rw [if_pos hin]; exact hin'
          · rw [if_neg hin]; exact List.mem_append_left _ hin'
        · rw [List.mem_singleton.mp h]
          by_cases hin : jsId it ∈ (buildGroups items).map CVEEntry.id
          · rw [if_pos hin]; exact hin
          · rw [if_neg hin]
            exact List.mem_append_right _ (List.mem_singleton_self _)
      · intro g' hg'
        rcases upsertCVE_mem it (jsId it) (buildGroups items) ihnd g' hg' with
          ⟨hmem, hne⟩ | ⟨g0, hg0, hid0, rfl⟩ | ⟨hnin, rfl⟩
        · obtain ⟨h1, hne1, h2⟩ := ihchar g' hmem
          refine ⟨h1, ?_, ?_⟩
          · rw [itemsForCVE_append, if_neg (fun hh => hne hh.symm)]
            simpa using hne1
          · rw [itemsForCVE_append, if_neg (fun hh => hne hh.symm)]
            simpa using h2
        · obtain ⟨h1, hne1, h2⟩ := ihchar g0 hg0
          have hgid : (stepCVE g0 it).id = g0.id := stepCVE_id g0 it
          refine ⟨by rw [hgid, hid0]; exact hm, ?_, ?_⟩
          · rw [hgid, itemsForCVE_append, if_pos hid0.symm]
            simp
          · rw [hgid, itemsForCVE_append, if_pos hid0.symm, List.foldl_append,
              List.foldl_cons, List.foldl_nil, ← h2]
        · have hgid : (stepCVE (newCVE (jsId it)) it).id = jsId it := stepCVE_id _ it
          have hempty : itemsForCVE items (jsId it) = [] := by
            simp only [itemsForCVE]
            rw [List.filter_eq_nil_iff]
            intro it' hit'
            intro hbe
            have heq : jsId it' = jsId it := by
              exact beq_iff_eq.mp (by simpa using hbe)
            have hmt : matchesCVE (jsId it') = true := by rw [heq]; exact hm
            have := ihcomp it' hit' hmt
            rw [heq] at this
            exact hnin this
          refine ⟨by rw [hgid]; exact hm, ?_, ?_⟩
          · rw [hgid, itemsForCVE_append, if_pos rfl, hempty]
            simp
          · rw [hgid, itemsForCVE_append, if_pos rfl, hempty, List.nil_append,
              List.foldl_cons, List.foldl_nil]

/-- The lexicographic string comparison is total. -/
theorem charListLe_total : ∀ a b : List Char,
    charListLe a b = true ∨ charListLe b a = true := by
  intro a
  induction a with
  | nil => intro b; exact Or.inl rfl
  | cons x xs ih =>
    intro b
    cases b with
    | nil => exact Or.inr rfl
    | cons y ys =>
      show (if x < y then true else if y < x then false else charListLe xs ys) = true ∨
        (if y < x then true else if x < y then false else charListLe ys xs) = true
      rcases lt_trichotomy x y with hlt | heq | hgt
      · left; rw [if_pos hlt]
      · subst heq
        rw [if_neg (lt_irrefl x), if_neg (lt_irrefl x), if_neg (lt_irrefl x),
          if_neg (lt_irrefl x)]
        exact ih ys
      · right; rw [if_pos hgt]

/-- Unfolding of the lexicographic comparison on two nonempty lists. -/
theorem charListLe_cons_iff (x y : Char) (xs ys : List Char) :
    charListLe (x :: xs) (y :: ys) = true ↔
      x < y ∨ (x = y ∧ charListLe xs ys = true) := by
  show (if x < y then true else if y < x then false else charListLe xs ys) = true ↔ _
  rcases lt_trichotomy x y with hlt | heq | hgt
  · rw [if_pos hlt]
    simp [hlt]
  · subst heq
    rw [if_neg (lt_irrefl x), if_neg (lt_irrefl x)]
    simp [lt_irrefl x]
  · rw [if_neg (not_lt_of_gt hgt), if_pos hgt]
    simp only [Bool.false_eq_true, false_iff]
    rintro (h | ⟨h, _⟩)
    · exact absurd h (not_lt_of_gt hgt)
    · exact absurd h (ne_of_gt hgt)

/-- The lexicographic string comparison is transitive. -/
theorem charListLe_trans : ∀ a b c : List Char,
    charListLe a b = true → charListLe b c = true → charListLe a c = true := by
  intro a
  induction a with
  | nil => intro b c _ _; rfl
  | cons x xs ih =>
    intro b c hab hbc
    cases b with
    | nil => exact absurd hab (by simp [charListLe])
    | cons y ys =>
      cases c with
      | nil => exact absurd hbc (by simp [charListLe])
      | cons z zs =>
        rw [charListLe_cons_iff] at hab ⊢
        rw [charListLe_cons_iff] at hbc
        rcases hab with hab | ⟨rfl, hab⟩
        · rcases hbc with hbc | ⟨rfl, _⟩
          · exact Or.inl (lt_trans hab hbc)
          · exact Or.inl hab
        · rcases hbc with hbc | ⟨rfl, hbc⟩
          · exact Or.inl hbc
          · exact Or.inr ⟨rfl, ih ys zs hab hbc⟩

/-- Splitting the non-positivity of the three-way JS comparator. -/
theorem jsOrNum2_le_zero (x y z : ℚ) :
    jsOrNum x (jsOrNum y z) ≤ 0 ↔
      x < 0 ∨ (x = 0 ∧ (y < 0 ∨ (y = 0 ∧ z ≤ 0))) := by
  unfold jsOrNum
  by_cases hx : x ≠ 0
  · rw [if_pos hx]
    constructor
    · intro h
      exact Or.inl (lt_of_le_of_ne h hx)
    · rintro (h | ⟨h, _⟩)
      · exact le_of_lt h
      · exact absurd h hx
  · push_neg at hx
    rw [if_neg (by rw [hx]; simp)]
    subst hx
    by_cases hy : y ≠ 0
    · rw [if_pos hy]
      constructor
      · intro h
        exact Or.inr ⟨rfl, Or.inl (lt_of_le_of_ne h hy)⟩
      · rintro (h | ⟨_, h | ⟨h, _⟩⟩)
        · exact absurd h (lt_irrefl 0)
        · exact le_of_lt h
        · exact absurd h hy
    · push_neg at hy
      rw [if_neg (by rw [hy]; simp)]
      subst hy
      constructor
      · intro h
        exact Or.inr ⟨rfl, Or.inr ⟨rfl, h⟩⟩
      · rintro (h | ⟨_, h | ⟨_, h⟩⟩)
        · exact absurd h (lt_irrefl 0)
        · exact absurd h (lt_irrefl 0)
        · exact h

/-- The sort relation coincides with the claim's ordering. -/
theorem cveLe_iff (a b : CVEEntry) : cveLe a b ↔ cveOrdered a b := by
  unfold cveLe cveCmp cveOrdered
  rw [jsOrNum2_le_zero]
  constructor
  · rintro (h | ⟨h0, h | ⟨h1, h2⟩⟩)
    · left
      have h' : (b.worstSeverityRank - a.worstSeverityRank : Int) < 0 := by
        exact_mod_cast h
      omega
    · have h0' : b.worstSeverityRank = a.worstSeverityRank := by
        have h'' : (b.worstSeverityRank - a.worstSeverityRank : Int) = 0 := by
          exact_mod_cast h0
        omega
      refine Or.inr ⟨h0', Or.inl ?_⟩
      have h' : (b.count : ℚ) < (a.count : ℚ) := by linarith
      exact_mod_cast h'
    · have h0' : b.worstSeverityRank = a.worstSeverityRank := by
        have h'' : (b.worstSeverityRank - a.worstSeverityRank : Int) = 0 := by
          exact_mod_cast h0
        omega
      have h1' : b.count = a.count := by
        have h'' : (b.count : ℚ) = (a.count : ℚ) := by linarith
        exact_mod_cast h''
      exact Or.inr ⟨h0', Or.inr ⟨h1', by linarith⟩⟩
  · rintro (h | ⟨h0, h | ⟨h1, h2⟩⟩)
    · left
      have h' : (b.worstSeverityRank - a.worstSeverityRank : Int) < 0 := by omega
      exact_mod_cast h'
    · refine Or.inr ⟨?_, Or.inl ?_⟩
      · have h' : (b.worstSeverityRank - a.worstSeverityRank : Int) = 0 := by omega
        exact_mod_cast h'
      · have h' : (b.count : ℚ) < (a.count : ℚ) := by exact_mod_cast h
        linarith
    · refine Or.inr ⟨?_, Or.inr ⟨?_, by linarith⟩⟩
      · have h' : (b.worstSeverityRank - a.worstSeverityRank : Int) = 0 := by omega
        exact_mod_cast h'
      · have h' : (b.count : ℚ) = (a.count : ℚ) := by exact_mod_cast h1
        linarith

/-- The claim's ordering is total. -/
theorem cveOrdered_total (a b : CVEEntry) : cveOrdered a b ∨ cveOrdered b a := by
  unfold cveOrdered
  rcases lt_trichotomy b.worstSeverityRank a.worstSeverityRank with h | h | h
  · exact Or.inl (Or.inl h)
  · rcases lt_trichotomy b.count a.count with h2 | h2 | h2
    · exact Or.inl (Or.inr ⟨h, Or.inl h2⟩)
    · rcases le_total (b.maxCVSS.getD 0) (a.maxCVSS.getD 0) with h3 | h3
      · exact Or.inl (Or.inr ⟨h, Or.inr ⟨h2, h3⟩⟩)
      · exact Or.inr (Or.inr ⟨h.symm, Or.inr ⟨h2.symm, h3⟩⟩)
    · exact Or.inr (Or.inr ⟨h.symm, Or.inl h2⟩)
  · exact Or.inr (Or.inl h)

/-- The sort relation is total. -/
theorem cveLe_total (a b : CVEEntry) : cveLe a b ∨ cveLe b a := by
  rw [cveLe_iff, cveLe_iff]
  exact cveOrdered_total a b

/-- The claim's ordering is transitive. -/
theorem cveOrdered_trans (a b c : CVEEntry)
    (hab : cveOrdered a b) (hbc : cveOrdered b c) : cveOrdered a c := by
  unfold cveOrdered at hab hbc ⊢
  rcases hab with h1 | ⟨h1, hab⟩
  · rcases hbc with h2 | ⟨h2, _⟩
    · exact Or.inl (lt_trans h2 h1)
    · exact Or.inl (by omega)
  · rcases hbc with h2 | ⟨h2, hbc⟩
    · exact Or.inl (by omega)
    · refine Or.inr ⟨by omega, ?_⟩
      rcases hab with hab | ⟨hab1, hab2⟩
      · rcases hbc with hbc | ⟨hbc1, _⟩
        · exact Or.inl (lt_trans hbc hab)
        · exact Or.inl (by omega)
      · rcases hbc with hbc | ⟨hbc1, hbc2⟩
        · exact Or.inl (by omega)
        · exact Or.inr ⟨by omega, le_trans hbc2 hab2⟩

/-- C6: every entry of `buildTopCVEs` has an id matching the CVE pattern;
the list has at most 10 entries; each entry aggregates exactly its id's
records (count, sorted duplicate-free dataset list, maximal non-null CVSS,
maximal severity rank); and the list is sorted by severity rank descending,
then count descending, then max CVSS descending (null as 0). -/
theorem buildTopCVEs_spec (items : List VulnRecord) :
    (∀ g ∈ buildTopCVEs items, matchesCVE g.id = true) ∧
    (buildTopCVEs items).length ≤ 10 ∧
    (∀ g ∈ buildTopCVEs items,
      g.count = (itemsForCVE items g.id).length ∧
      List.Sorted strLe g.datasets ∧
      g.datasets.Nodup ∧
      (∀ d, d ∈ g.datasets ↔ d ∈ (itemsForCVE items g.id).map VulnRecord.dataset) ∧
      (∀ c, g.maxCVSS = some c → ∃ it ∈ itemsForCVE items g.id, it.cvss = some c) ∧
      (∀ it ∈ itemsForCVE items g.id, ∀ c, it.cvss = some c →
        ∃ m, g.maxCVSS = some m ∧ c ≤ m) ∧
      (∀ it ∈ itemsForCVE items g.id, (it.severityRank : Int) ≤ g.worstSeverityRank) ∧
      (∃ it ∈ itemsForCVE items g.id, (it.severityRank : Int) = g.worstSeverityRank)) ∧
    List.Sorted cveOrdered (buildTopCVEs items) := by
  obtain ⟨hnd, hcomp, hchar⟩ := buildGroups_char items
  have hinstTotS : IsTotal String strLe := ⟨fun a b => charListLe_total a.data b.data⟩
  have hinstTrS : IsTrans String strLe := ⟨fun a b c => charListLe_trans a.data b.data c.data⟩
  have hinstTot : IsTotal CVEEntry cveLe := ⟨cveLe_total⟩
  have hinstTr : IsTrans CVEEntry cveLe := ⟨fun a b c hab hbc =>
    (cveLe_iff a c).mpr (cveOrdered_trans a b c ((cveLe_iff a b).mp hab)
      ((cveLe_iff b c).mp hbc))⟩
  have hmem : ∀ g ∈ buildTopCVEs items, ∃ g0 ∈ buildGroups items,
      g = { g0 with datasets := g0.datasets.insertionSort strLe } := by
    intro g hg
    simp only [buildTopCVEs] at hg
    have hg2 := List.take_subset 10 _ hg
    have hg3 := (List.perm_insertionSort cveLe _).mem_iff.mp hg2
    obtain ⟨g0, hg0, rfl⟩ := List.mem_map.mp hg3
    exact ⟨g0, hg0, rfl⟩
  refine ⟨?_, ?_, ?_, ?_⟩
  · intro g hg
    obtain ⟨g0, hg0, rfl⟩ := hmem g hg
    exact (hchar g0 hg0).1
  · simp only [buildTopCVEs]
    rw [List.length_take]
    exact min_le_left _ _
  · intro g hg
    obtain ⟨g0, hg0, rfl⟩ := hmem g hg
    obtain ⟨hm0, hne0, hchar0⟩ := hchar g0 hg0
    have hds_nodup : g0.datasets.Nodup := by
      rw [hchar0]
      exact foldl_stepCVE_datasets_nodup _ _ (by simp [newCVE])
    have hds_mem : ∀ d, d ∈ g0.datasets ↔
        d ∈ (itemsForCVE items g0.id).map VulnRecord.dataset := by
      intro d
      conv_lhs => rw [hchar0]
      rw [foldl_stepCVE_datasets_mem]
      simp [newCVE]
    refine ⟨?_, ?_, ?_, ?_, ?_, ?_, ?_, ?_⟩
    · show g0.count = (itemsForCVE items g0.id).length
      conv_lhs => rw [hchar0]
      rw [foldl_stepCVE_count]
      simp [newCVE]
    · exact @List.sorted_insertionSort String strLe _ hinstTotS hinstTrS g0.datasets
    · show (g0.datasets.insertionSort strLe).Nodup
      exact ((List.perm_insertionSort strLe _).nodup_iff).mpr hds_nodup
    · intro d
      show d ∈ g0.datasets.insertionSort strLe ↔ _
      rw [(List.perm_insertionSort strLe _).mem_iff]
      exact hds_mem d
    · intro c hc
      have hc' : (((itemsForCVE items g0.id).foldl stepCVE (newCVE g0.id)).maxCVSS)
          = some c := by rw [← hchar0]; exact hc
      rcases foldl_stepCVE_maxCVSS_src _ _ _ hc' with hbase | h
      · exact absurd hbase (by simp [newCVE])
      · exact h
    · intro it hit c hc
      have := foldl_stepCVE_maxCVSS_dom (itemsForCVE items g0.id) (newCVE g0.id) it c hit hc
      rwa [← hchar0] at this
    · intro it hit
      have := foldl_stepCVE_worst_dom (itemsForCVE items g0.id) (newCVE g0.id) it hit
      rwa [← hchar0] at this
    · rcases foldl_stepCVE_worst_src (itemsForCVE items g0.id) (newCVE g0.id) with hbase | h
      · exfalso
        obtain ⟨it0, hit0⟩ := List.exists_mem_of_ne_nil _ hne0
        have hdom := foldl_stepCVE_worst_dom (itemsForCVE items g0.id) (newCVE g0.id) it0 hit0
        rw [hbase] at hdom
        have : (0 : Int) ≤ (it0.severityRank : Int) := Int.ofNat_nonneg _
        have hneg : (newCVE g0.id).worstSeverityRank = -1 := rfl
        omega
      · obtain ⟨it0, hit0, heq⟩ := h
        refine ⟨it0, hit0, ?_⟩
        show (it0.severityRank : Int) = g0.worstSeverityRank
        rw [hchar0, heq]
  · have hs : List.Sorted cveLe
        (List.insertionSort cveLe ((buildGroups items).map
          (fun g : CVEEntry => { g with datasets := g.datasets.insertionSort strLe }))) :=
      @List.sorted_insertionSort CVEEntry cveLe _ hinstTot hinstTr _
    have hs2 : List.Sorted cveOrdered
        (List.insertionSort cveLe ((buildGroups items).map
          (fun g : CVEEntry => { g with datasets := g.datasets.insertionSort strLe }))) :=
      List.Pairwise.imp (fun h => (cveLe_iff _ _).mp h) hs
    simp only [buildTopCVEs]
    exact List.Pairwise.sublist (List.take_sublist 10 _) hs2

/-- Witness for C6 at a concrete item list: a single CVE-id record gives a
ranking of length at most 10 whose (sole) member has a CVE-pattern id. -/
theorem buildTopCVEs_spec_witness :
    (buildTopCVEs [⟨"d1", some "CVE-2024-0001", "t", "HIGH", 3, none, none, none,
      none, [], true, [], [], []⟩]).length ≤ 10 ∧
    matchesCVE (⟨"CVE-2024-0001", 1, ["d1"], none, 3⟩ : CVEEntry).id = true := by
  constructor
  · exact (buildTopCVEs_spec [⟨"d1", some "CVE-2024-0001", "t", "HIGH", 3, none, none, none,
      none, [], true, [], [], []⟩]).2.1
  · exact (buildTopCVEs_spec [⟨"d1", some "CVE-2024-0001", "t", "HIGH", 3, none, none, none,
      none, [], true, [], [], []⟩]).1 ⟨"CVE-2024-0001", 1, ["d1"], none, 3⟩ (by decide)
